import Mathlib

/-!
Verification development for the remindME reminder-extraction service
(`src/public/app.py`, `src/frontend/app.py`).

Strings are modelled as `List Char`.  Calendar dates are modelled as
year/month/day triples with their proleptic-Gregorian ordinal (the same
ordinal Python's `date.toordinal` computes, where 0001-01-01 has ordinal 1
and is a Monday).  `Option` results model raised exceptions where the
Python code can raise (`OverflowError` on calendar overflow past year
9999, `AttributeError`/`TypeError` on values of unexpected type); `none`
means the corresponding Python call raised.
-/

namespace RemindMe

/-- ASCII lowercasing of one character, as Python `str.lower` acts on ASCII. -/
def charLower (c : Char) : Char :=
  if 'A' ≤ c ∧ c ≤ 'Z' then Char.ofNat (c.toNat + 32) else c

/-- `str.lower` on ASCII text. -/
def strLower (l : List Char) : List Char := l.map charLower

/-- Python whitespace (the ASCII fragment of `str.strip` / regex `\s`). -/
def isWs (c : Char) : Bool :=
  c = ' ' || c = '\t' || c = '\n' || c = '\r' || c = '\x0b' || c = '\x0c'

/-- `str.strip()`: drop leading and trailing whitespace. -/
def pyStrip (l : List Char) : List Char :=
  ((l.dropWhile isWs).reverse.dropWhile isWs).reverse

def isDigitC (c : Char) : Bool := '0' ≤ c && c ≤ '9'

/-- Value of a decimal digit character. -/
def digitVal (c : Char) : Nat := c.toNat - 48

/-- Decimal digit character for `d < 10`. -/
def digitChar (d : Nat) : Char :=
  match d with
  | 0 => '0' | 1 => '1' | 2 => '2' | 3 => '3' | 4 => '4'
  | 5 => '5' | 6 => '6' | 7 => '7' | 8 => '8' | 9 => '9'
  | _ => '*'

/-- Digits of a natural number in decimal (enough cases for this code base;
numbers formatted by the service are below 10000). -/
def decDigits (n : Nat) : List Char :=
  if n < 10 then [digitChar n]
  else if n < 100 then [digitChar (n / 10), digitChar (n % 10)]
  else if n < 1000 then [digitChar (n / 100), digitChar (n / 10 % 10), digitChar (n % 10)]
  else [digitChar (n / 1000 % 10), digitChar (n / 100 % 10), digitChar (n / 10 % 10),
        digitChar (n % 10)]

/-- Python `f"{n:02d}"`. -/
def fmt2 (n : Nat) : List Char :=
  if n < 10 then '0' :: decDigits n else decDigits n

/-- `strftime("%Y")`: the year zero-padded to four digits. -/
def fmt4 (n : Nat) : List Char :=
  if n < 10 then '0' :: '0' :: '0' :: decDigits n
  else if n < 100 then '0' :: '0' :: decDigits n
  else if n < 1000 then '0' :: decDigits n
  else decDigits n

/-- `strftime("%H:%M")`. -/
def fmtHM (h m : Nat) : List Char := fmt2 h ++ ':' :: fmt2 m

/-- Natural number denoted by a list of decimal digits. -/
def natOfDigits (ds : List Char) : Nat :=
  ds.foldl (fun a c => 10 * a + digitVal c) 0

/-- Model of `re.search(r'(\d+)', l)`: the first maximal digit run, if any. -/
def firstNumber (l : List Char) : Option Nat :=
  let t := l.dropWhile (fun c => !isDigitC c)
  match t with
  | [] => none
  | _ :: _ => some (natOfDigits (t.takeWhile isDigitC))

/-- Substring containment, the model of Python `pat in s`. -/
def containsSub (pat : List Char) : List Char → Bool
  | [] => pat.isEmpty
  | c :: rest => pat.isPrefixOf (c :: rest) || containsSub pat rest

/-! ## Calendar dates -/

/-- A calendar date, the model of Python `datetime.date`. -/
structure Date where
  year : Nat
  month : Nat
  day : Nat
  deriving DecidableEq, Repr

/-- Gregorian leap year. -/
def isLeap (y : Nat) : Bool := (y % 4 = 0 && y % 100 ≠ 0) || y % 400 = 0

/-- Days in a month (0 for an invalid month index). -/
def daysInMonth (y m : Nat) : Nat :=
  match m with
  | 1 => 31 | 2 => if isLeap y then 29 else 28 | 3 => 31 | 4 => 30
  | 5 => 31 | 6 => 30 | 7 => 31 | 8 => 31 | 9 => 30 | 10 => 31
  | 11 => 30 | 12 => 31
  | _ => 0

/-- Days in year `y` strictly before month `m`. -/
def daysBeforeMonth (y m : Nat) : Nat :=
  (match m with
   | 1 => 0 | 2 => 31 | 3 => 59 | 4 => 90 | 5 => 120 | 6 => 151
   | 7 => 181 | 8 => 212 | 9 => 243 | 10 => 273 | 11 => 304 | 12 => 334
   | _ => 0)
  + (if 3 ≤ m ∧ isLeap y then 1 else 0)

/-- `date.toordinal`: days since 0000-12-31 in the proleptic Gregorian
calendar (0001-01-01 ↦ 1). -/
def Date.toOrdinal (dt : Date) : Nat :=
  365 * (dt.year - 1) + ((dt.year - 1) / 4 - (dt.year - 1) / 100)
    + (dt.year - 1) / 400 + daysBeforeMonth dt.year dt.month + dt.day

/-- The dates `datetime.date` can represent (year 1..9999, valid month/day). -/
def Date.validB (dt : Date) : Bool :=
  1 ≤ dt.year && dt.year ≤ 9999 && 1 ≤ dt.month && dt.month ≤ 12
    && 1 ≤ dt.day && dt.day ≤ daysInMonth dt.year dt.month

/-- `date.weekday()`: Monday is 0.  0001-01-01 (ordinal 1) is a Monday. -/
def Date.weekday (dt : Date) : Nat := (dt.toOrdinal + 6) % 7

/-- The next calendar day; `none` models Python's `OverflowError` past
`date.max` (9999-12-31). -/
def nextDay (dt : Date) : Option Date :=
  if dt.day < daysInMonth dt.year dt.month then some ⟨dt.year, dt.month, dt.day + 1⟩
  else if dt.month < 12 then some ⟨dt.year, dt.month + 1, 1⟩
  else if dt.year < 9999 then some ⟨dt.year + 1, 1, 1⟩
  else none

/-- The previous calendar day; `none` models `OverflowError` before
`date.min` (0001-01-01). -/
def prevDay (dt : Date) : Option Date :=
  if 1 < dt.day then some ⟨dt.year, dt.month, dt.day - 1⟩
  else if 1 < dt.month then some ⟨dt.year, dt.month - 1, daysInMonth dt.year (dt.month - 1)⟩
  else if 1 < dt.year then some ⟨dt.year - 1, 12, 31⟩
  else none

/-- `dt + timedelta(days=n)`; `none` models `OverflowError`. -/
def addDays (dt : Date) : Nat → Option Date
  | 0 => some dt
  | n + 1 =>
    match addDays dt n with
    | some e => nextDay e
    | none => none

/-- Lexicographic (= chronological) strict order on dates; `datetime`
compares the field tuples exactly like this. -/
def dateLt (a b : Date) : Bool :=
  a.year < b.year || (a.year = b.year &&
    (a.month < b.month || (a.month = b.month && a.day < b.day)))

def dateLe (a b : Date) : Bool := dateLt a b || a = b

/-- `date.isoformat()`. -/
def isoString (dt : Date) : List Char :=
  fmt4 dt.year ++ '-' :: (fmt2 dt.month ++ '-' :: fmt2 dt.day)

/-- `date.fromisoformat` on a strict `YYYY-MM-DD` string; `none` models a
raised `ValueError`. -/
def isoParse (l : List Char) : Option Date :=
  match l with
  | [y1, y2, y3, y4, s1, m1, m2, s2, d1, d2] =>
    if s1 = '-' && s2 = '-' && isDigitC y1 && isDigitC y2 && isDigitC y3 && isDigitC y4
        && isDigitC m1 && isDigitC m2 && isDigitC d1 && isDigitC d2 then
      if (⟨natOfDigits [y1, y2, y3, y4], natOfDigits [m1, m2],
           natOfDigits [d1, d2]⟩ : Date).validB then
        some ⟨natOfDigits [y1, y2, y3, y4], natOfDigits [m1, m2], natOfDigits [d1, d2]⟩
      else none
    else none
  | _ => none

/-- A supplied "now" reference: the `current_datetime` payload
`{isoDate, hour, minute}` after parsing. -/
structure TempRef where
  isoDate : Date
  hour : Nat
  minute : Nat
  deriving DecidableEq, Repr

/-! ## `convert_time_to_24h` (src/public/app.py lines 313-381) -/

/-- Python `int()` on a string: optional surrounding whitespace, optional
sign, decimal digits; `none` models a raised `ValueError`. -/
def pyInt (l : List Char) : Option Int :=
  match pyStrip l with
  | [] => none
  | c :: rest =>
    if c = '-' then
      if rest ≠ [] ∧ rest.all isDigitC then some (-(natOfDigits rest : Int)) else none
    else if c = '+' then
      if rest ≠ [] ∧ rest.all isDigitC then some (natOfDigits rest) else none
    else if (c :: rest).all isDigitC then some (natOfDigits (c :: rest) : Int)
    else none

/-- The literal tail `(am|pm)` of the time regex. -/
def ampmLit (l : List Char) : Option Bool :=
  if ['a', 'm'].isPrefixOf l then some false
  else if ['p', 'm'].isPrefixOf l then some true
  else none

/-- After hour digits `hd` and minute digits `mn`, match `\s*(am|pm)`.
`\s*` is effectively maximal: `am`/`pm` never starts with whitespace. -/
def ampmFinish (hd : List Char) (mn : Option (List Char)) (r : List Char) :
    Option (Nat × Nat × Bool) :=
  match ampmLit (r.dropWhile isWs) with
  | some pm =>
    some (natOfDigits hd, (match mn with | some m0 => natOfDigits m0 | none => 0), pm)
  | none => none

/-- Optional minute group `(\d{2})?`: with the group first, then without
(regex backtracking order). -/
def ampmMinuteOpts (hd : List Char) (r : List Char) : Option (Nat × Nat × Bool) :=
  (match r with
   | c :: d :: r2 =>
     if isDigitC c && isDigitC d then ampmFinish hd (some [c, d]) r2 else none
   | _ => none).orElse (fun _ => ampmFinish hd none r)

/-- Optional colon `:?`: consuming it first, then not (backtracking order). -/
def ampmColonOpts (hd : List Char) (r : List Char) : Option (Nat × Nat × Bool) :=
  match r with
  | ':' :: r2 => (ampmMinuteOpts hd r2).orElse (fun _ => ampmMinuteOpts hd (':' :: r2))
  | _ => ampmMinuteOpts hd r

/-- Match `(\d{1,2}):?(\d{2})?\s*(am|pm)` anchored at the head of `l`:
two hour digits first, then one (greedy with backtracking). -/
def ampmAt (l : List Char) : Option (Nat × Nat × Bool) :=
  match l with
  | a :: b :: rest =>
    if isDigitC a && isDigitC b then
      (ampmColonOpts [a, b] rest).orElse (fun _ => ampmColonOpts [a] (b :: rest))
    else if isDigitC a then ampmColonOpts [a] (b :: rest)
    else none
  | [a] => if isDigitC a then ampmColonOpts [a] [] else none
  | [] => none

/-- `re.search` of the am/pm pattern: leftmost position that matches. -/
def ampmSearch : List Char → Option (Nat × Nat × Bool)
  | [] => none
  | c :: rest => (ampmAt (c :: rest)).orElse (fun _ => ampmSearch rest)

/-- Lines 324-336: relative offsets ("next"/"in" with "hour"/"minute"). -/
def relTime (ts : List Char) (cd : TempRef) : Option (List Char) :=
  if containsSub "next".data ts || containsSub "in".data ts then
    match firstNumber ts with
    | some n =>
      if containsSub "hour".data ts then
        some (fmtHM ((cd.hour + n) % 24) cd.minute)
      else if containsSub "minute".data ts then
        some (fmtHM ((cd.hour + (cd.minute + n) / 60) % 24) ((cd.minute + n) % 60))
      else none
    | none => none
  else none

/-- Lines 360-369: `H:MM` 24-hour format, with its 0-23 / 0-59 guard. -/
def colonTime (ts : List Char) : Option (List Char) :=
  if containsSub ":".data ts then
    match pyInt (ts.takeWhile (fun c => c ≠ ':')),
      pyInt (((ts.dropWhile (fun c => c ≠ ':')).drop 1).takeWhile (fun c => c ≠ ':')) with
    | some h, some m =>
      if 0 ≤ h ∧ h ≤ 23 ∧ 0 ≤ m ∧ m ≤ 59 then some (fmtHM h.toNat m.toNat)
      else none
    | _, _ => none
  else none

/-- Lines 371-379: word defaults. -/
def wordTime (ts : List Char) : Option (List Char) :=
  if containsSub "morning".data ts then some "09:00".data
  else if containsSub "afternoon".data ts then some "14:00".data
  else if containsSub "evening".data ts then some "18:00".data
  else if containsSub "night".data ts then some "20:00".data
  else none

/-- `convert_time_to_24h(time_str, current_datetime)`.  `none` is Python
`None` (no recognizable time); the function itself never raises. -/
def convert_time_to_24h (time_str0 : List Char) (cd : TempRef) : Option (List Char) :=
  if time_str0.isEmpty then none
  else
    let time_str := pyStrip (strLower time_str0)
    match relTime time_str cd with
    | some r => some r
    | none =>
      if containsSub "12 am".data time_str || containsSub "12am".data time_str then
        some "00:00".data
      else if containsSub "12 pm".data time_str || containsSub "12pm".data time_str then
        some "12:00".data
      else
        match ampmSearch time_str with
        | some (h0, m, pm) =>
          some (fmtHM (if pm && h0 ≠ 12 then h0 + 12
                       else if !pm && h0 = 12 then 0
                       else h0) m)
        | none =>
          match colonTime time_str with
          | some r => some r
          | none => wordTime time_str

/-! ## `convert_date_to_iso` (src/public/app.py lines 220-311) -/

/-- The source's `days_ahead` computation: `target_day - today.weekday()`,
rolled forward by 7 when not positive. -/
def weekAheadDelta (target : Nat) (today : Date) : Nat :=
  (let da0 : Int := (target : Int) - (today.weekday : Int)
   if da0 ≤ 0 then da0 + 7 else da0).toNat

/-- The weekday table of the source (`Monday = 0`). -/
def weekdayNames : List (List Char × Nat) :=
  [("monday".data, 0), ("tuesday".data, 1), ("wednesday".data, 2), ("thursday".data, 3),
   ("friday".data, 4), ("saturday".data, 5), ("sunday".data, 6)]

/-- Month-name alternation of the source regex, in alternation order, each
with its `month_map` value.  Matching the first alternative that is a
prefix is equivalent to the regex: whenever a longer name matches and the
pattern tail then fails, the shorter alternative leaves a letter in front
of `\s+`, so it fails too. -/
def monthAlts : List (List Char × Nat) :=
  [("january".data, 1), ("february".data, 2), ("march".data, 3), ("april".data, 4),
   ("may".data, 5), ("june".data, 6), ("july".data, 7), ("august".data, 8),
   ("september".data, 9), ("october".data, 10), ("november".data, 11),
   ("december".data, 12),
   ("jan".data, 1), ("feb".data, 2), ("mar".data, 3), ("apr".data, 4), ("may".data, 5),
   ("jun".data, 6), ("jul".data, 7), ("aug".data, 8), ("sep".data, 9), ("oct".data, 10),
   ("nov".data, 11), ("dec".data, 12)]

def matchAltsFrom : List (List Char × Nat) → List Char → Option (Nat × List Char)
  | [], _ => none
  | (name, v) :: rest, l =>
    if name.isPrefixOf l then some (v, l.drop name.length)
    else matchAltsFrom rest l

def matchMonthName (l : List Char) : Option (Nat × List Char) := matchAltsFrom monthAlts l

/-- Pattern `(\d{1,2})\s+(month)` anchored at the head: result `(day, month)`. -/
def p1At (l : List Char) : Option (Nat × Nat) :=
  let tryTail := fun (digits : List Char) (r : List Char) =>
    if (r.takeWhile isWs).isEmpty then none
    else match matchMonthName (r.dropWhile isWs) with
      | some (m, _) => some (natOfDigits digits, m)
      | none => none
  match l with
  | a :: b :: rest =>
    if isDigitC a && isDigitC b then
      (tryTail [a, b] rest).orElse (fun _ => tryTail [a] (b :: rest))
    else if isDigitC a then tryTail [a] (b :: rest)
    else none
  | _ => none

def p1Search : List Char → Option (Nat × Nat)
  | [] => none
  | c :: rest => (p1At (c :: rest)).orElse (fun _ => p1Search rest)

/-- Pattern `(month)\s+(\d{1,2})` anchored at the head: result `(day, month)`. -/
def p2At (l : List Char) : Option (Nat × Nat) :=
  match matchMonthName l with
  | some (m, r) =>
    if (r.takeWhile isWs).isEmpty then none
    else
      match r.dropWhile isWs with
      | a :: b :: _ =>
        if isDigitC a && isDigitC b then some (natOfDigits [a, b], m)
        else if isDigitC a then some (natOfDigits [a], m)
        else none
      | [a] => if isDigitC a then some (natOfDigits [a], m) else none
      | [] => none
  | none => none

def p2Search : List Char → Option (Nat × Nat)
  | [] => none
  | c :: rest => (p2At (c :: rest)).orElse (fun _ => p2Search rest)

/-- `convert_date_to_iso(date_str, current_datetime)` of `src/public/app.py`:
result is the returned calendar date; `none` models a raised
`OverflowError` from `timedelta` arithmetic beyond `date.min`/`date.max`. -/
def convert_date_to_iso (date_str0 : List Char) (today : Date) : Option Date :=
  if date_str0.isEmpty then some today
  else
    let date_str := pyStrip (strLower date_str0)
    if date_str = "today".data ∨ date_str = [] then some today
    else if date_str = "tomorrow".data then addDays today 1
    else if date_str = "yesterday".data then prevDay today
    else
      match List.lookup date_str weekdayNames with
      | some target => addDays today (weekAheadDelta target today)
      | none =>
        let relResult : Option (Option Date) :=
          if containsSub "next".data date_str || containsSub "in".data date_str then
            match firstNumber date_str with
            | some n =>
              if containsSub "day".data date_str then some (addDays today n)
              else if containsSub "week".data date_str then some (addDays today (7 * n))
              else none
            | none => none
          else none
        match relResult with
        | some r => r
        | none =>
          match (p1Search date_str).orElse (fun _ => p2Search date_str) with
          | some (day, month) =>
            let cand : Date := ⟨today.year, month, day⟩
            if cand.validB then
              if dateLt cand today then
                let cand2 : Date := ⟨today.year + 1, month, day⟩
                if cand2.validB then some cand2 else some today
              else some cand
            else some today
          | none =>
            if date_str.length = 10 ∧ containsSub "-".data date_str then
              match isoParse date_str with
              | some d => some d
              | none => some today
            else some today

/-- `convert_date_to_iso(date_str)` of `src/frontend/app.py` (lines 146-166):
only `today`, `tomorrow` and `friday` are recognized; an ISO-parseable
string is passed through, anything else becomes today. -/
def frontend_convert_date_to_iso (date_str : List Char) (today : Date) : Option Date :=
  if strLower date_str = "today".data then some today
  else if strLower date_str = "tomorrow".data then addDays today 1
  else if strLower date_str = "friday".data then
    addDays today (weekAheadDelta 4 today)
  else
    match isoParse date_str with
    | some d => some d
    | none => some today

/-! ## `validate_datetime` (src/public/app.py lines 383-428) -/

/-- `t1 ≤ t2` on times of day, as `datetime.time` compares. -/
def timeLe (h1 m1 h2 m2 : Nat) : Bool := h1 < h2 || (h1 = h2 && m1 ≤ m2)

/-- `dt1 ≤ dt2` on composed datetimes (field-tuple comparison). -/
def dtLe (d1 : Date) (h1 m1 : Nat) (d2 : Date) (h2 m2 : Nat) : Bool :=
  dateLt d1 d2 || (d1 = d2 && timeLe h1 m1 h2 m2)

def apostrophe : Char := Char.ofNat 39

/-- Stand-in for the message built from a caught `ValueError`; no claim
depends on its exact text. -/
def invalidMsg : List Char := "Invalid date/time format".data

def pastTimeMsg (now : TempRef) (rh rm : Nat) : List Char :=
  "Cannot set reminder for past time. Current time is ".data
    ++ fmtHM now.hour now.minute
    ++ " and you".data ++ apostrophe :: "re trying to set it for ".data
    ++ fmtHM rh rm ++ ".".data

def pastDateMsg (now : TempRef) (rdate : Date) : List Char :=
  "Cannot set reminder for past date. Today is ".data
    ++ isoString now.isoDate
    ++ " and you".data ++ apostrophe :: "re trying to set it for ".data
    ++ isoString rdate ++ ".".data

/-- The comparison tail of `validate_datetime` (lines 411-424): reminder
datetime against current datetime, then the same-day / past-day split. -/
def validate_core (rdate : Date) (rh rm : Nat) (now : TempRef) : Option (List Char) :=
  if dtLe rdate rh rm now.isoDate now.hour now.minute then
    if rdate = now.isoDate then
      if timeLe rh rm now.hour now.minute then some (pastTimeMsg now rh rm)
      else none
    else some (pastDateMsg now rdate)
  else none

/-- `validate_datetime(date_str, time_str, current_datetime)`.  The date
string has already been parsed into `rdate` (the caller passes
`convert_date_to_iso`'s output, a well-formed ISO string).  `some msg` is a
returned error message, `none` means the reminder was accepted. -/
def validate_datetime (rdate : Date) (time_str : Option (List Char)) (now : TempRef) :
    Option (List Char) :=
  if 23 < now.hour ∨ 59 < now.minute then some invalidMsg
  else
    let parsed : Option (Nat × Nat) :=
      match time_str with
      | none => some (9, 0)
      | some t =>
        match t.dropWhile (fun c => c ≠ ':') with
        | [] => none
        | _ :: r1 =>
          match pyInt (t.takeWhile (fun c => c ≠ ':')),
                pyInt (r1.takeWhile (fun c => c ≠ ':')) with
          | some h, some m =>
            if 0 ≤ h ∧ h ≤ 23 ∧ 0 ≤ m ∧ m ≤ 59 then some (h.toNat, m.toNat) else none
          | _, _ => none
    match parsed with
    | none => some invalidMsg
    | some (rh, rm) => validate_core rdate rh rm now

/-! ## `strip_html_tags` (src/public/app.py lines 170-182) -/

/-- Does `cs` begin the inside of a tag, i.e. does `<` followed by `cs`
match `<[^>]+>`?  True iff `cs` starts with a non-`>` character and
contains a `>`. -/
def startsTag (cs : List Char) : Bool :=
  !(cs.takeWhile (fun x => x ≠ '>')).isEmpty
    && !(cs.dropWhile (fun x => x ≠ '>')).isEmpty

/-- `re.sub(r'<[^>]+>', '', text)`: scan left to right; at a `<` opening a
tag, drop through the closing `>` and resume after it; otherwise keep the
character. -/
def removeTags : List Char → List Char
  | [] => []
  | c :: cs =>
    if c = '<' ∧ startsTag cs then
      removeTags ((cs.dropWhile (fun x => x ≠ '>')).drop 1)
    else c :: removeTags cs
termination_by l => l.length
decreasing_by
  all_goals simp only [List.length_cons]
  all_goals
    first
      | omega
      | exact Nat.lt_succ_of_le (Nat.le_trans (Nat.le_trans
          (Nat.le_of_eq (List.length_drop 1 _))
          (Nat.sub_le _ _)) ((List.dropWhile_sublist _).length_le))

/-- `re.sub(r'\s+', ' ', text)`: every maximal whitespace run becomes one
space. -/
def collapseWs : List Char → List Char
  | [] => []
  | c :: cs =>
    if isWs c then ' ' :: collapseWs (cs.dropWhile isWs)
    else c :: collapseWs cs
termination_by l => l.length
decreasing_by
  all_goals simp only [List.length_cons]
  all_goals
    first
      | omega
      | exact Nat.lt_succ_of_le ((List.dropWhile_sublist _).length_le)

/-- `strip_html_tags(text)`: remove tags, collapse whitespace, strip ends.
The empty string is returned unchanged (`if not text: return text`). -/
def strip_html_tags (text : List Char) : List Char :=
  if text.isEmpty then text
  else pyStrip (collapseWs (removeTags text))

/-- `l` contains a substring matching `<[^>]+>`. -/
def hasTag : List Char → Bool
  | [] => false
  | c :: cs => (c = '<' && startsTag cs) || hasTag cs

/-! ## JSON values and `json.loads` -/

/-- A decoded JSON value.  Numbers keep their lexeme, which is all the
service ever inspects (truthiness and `str()` formatting). -/
inductive Json where
  | null
  | bool (b : Bool)
  | num (lex : List Char)
  | str (s : List Char)
  | arr (xs : List Json)
  | obj (fields : List (List Char × Json))

/-- JSON inter-token whitespace. -/
def isJsonWs (c : Char) : Bool := c = ' ' || c = '\t' || c = '\n' || c = '\r'

def skipWs (l : List Char) : List Char := l.dropWhile isJsonWs

def hexVal (c : Char) : Option Nat :=
  if isDigitC c then some (digitVal c)
  else if 'a' ≤ c ∧ c ≤ 'f' then some (c.toNat - 87)
  else if 'A' ≤ c ∧ c ≤ 'F' then some (c.toNat - 55)
  else none

/-- Body of a JSON string after the opening quote: content and remaining
input after the closing quote.  Unknown escapes, unterminated strings and
raw control characters fail, as in `json.loads` (strict mode).  `\uXXXX`
maps through `Char.ofNat` (surrogate-pair recombination is not modelled;
no claim involves it). -/
def strBodyF : Nat → List Char → Option (List Char × List Char)
  | 0, _ => none
  | _ + 1, [] => none
  | _ + 1, '"' :: rest => some ([], rest)
  | fuel + 1, '\\' :: e :: rest =>
    (match e with
     | '"' => (strBodyF fuel rest).map (fun p => ('"' :: p.1, p.2))
     | '\\' => (strBodyF fuel rest).map (fun p => ('\\' :: p.1, p.2))
     | '/' => (strBodyF fuel rest).map (fun p => ('/' :: p.1, p.2))
     | 'b' => (strBodyF fuel rest).map (fun p => ('\x08' :: p.1, p.2))
     | 'f' => (strBodyF fuel rest).map (fun p => ('\x0c' :: p.1, p.2))
     | 'n' => (strBodyF fuel rest).map (fun p => ('\n' :: p.1, p.2))
     | 'r' => (strBodyF fuel rest).map (fun p => ('\r' :: p.1, p.2))
     | 't' => (strBodyF fuel rest).map (fun p => ('\t' :: p.1, p.2))
     | 'u' =>
       match rest with
       | h1 :: h2 :: h3 :: h4 :: r2 =>
         match hexVal h1, hexVal h2, hexVal h3, hexVal h4 with
         | some a, some b, some c, some d =>
           (strBodyF fuel r2).map (fun p =>
             (Char.ofNat (((a * 16 + b) * 16 + c) * 16 + d) :: p.1, p.2))
         | _, _, _, _ => none
       | _ => none
     | _ => none)
  | fuel + 1, c :: rest =>
    if c.toNat < 32 then none
    else (strBodyF fuel rest).map (fun p => (c :: p.1, p.2))

/-- Fuel-bounded: every step of `strBodyF` consumes at least one input
character, so `length + 1` fuel never runs out before the input does. -/
def strBody (l : List Char) : Option (List Char × List Char) :=
  strBodyF (l.length + 1) l

/-- Integer part of a JSON number (no leading zeros except `0` itself). -/
def lexIntPart : List Char → Option (List Char × List Char)
  | '0' :: rest => some (['0'], rest)
  | c :: rest =>
    if isDigitC c then some (c :: rest.takeWhile isDigitC, rest.dropWhile isDigitC)
    else none
  | [] => none

def lexFrac : List Char → Option (List Char × List Char)
  | '.' :: r =>
    let ds := r.takeWhile isDigitC
    if ds.isEmpty then none else some ('.' :: ds, r.dropWhile isDigitC)
  | l => some ([], l)

def lexExp : List Char → Option (List Char × List Char)
  | c :: r =>
    if c = 'e' ∨ c = 'E' then
      let sr : List Char × List Char :=
        match r with
        | '+' :: r2 => (['+'], r2)
        | '-' :: r2 => (['-'], r2)
        | _ => ([], r)
      let ds := sr.2.takeWhile isDigitC
      if ds.isEmpty then none
      else some (c :: sr.1 ++ ds, sr.2.dropWhile isDigitC)
    else some ([], c :: r)
  | [] => some ([], [])

/-- Lexeme of a JSON number at the head of the input. -/
def lexNum (l : List Char) : Option (List Char × List Char) :=
  let nl : Bool × List Char := match l with | '-' :: r => (true, r) | _ => (false, l)
  match lexIntPart nl.2 with
  | none => none
  | some (ip, r1) =>
    match lexFrac r1 with
    | none => none
    | some (fp, r2) =>
      match lexExp r2 with
      | none => none
      | some (ep, r3) =>
        some ((if nl.1 then '-' :: ip else ip) ++ fp ++ ep, r3)

mutual

/-- Parse one JSON value at the head of the input (whitespace already
skipped), fuel-bounded. -/
def parseVal : Nat → List Char → Option (Json × List Char)
  | 0, _ => none
  | fuel + 1, l =>
    match l with
    | '{' :: rest => parseMembers fuel (skipWs rest) true []
    | '[' :: rest => parseItems fuel (skipWs rest) true []
    | '"' :: rest => (strBody rest).map (fun p => (Json.str p.1, p.2))
    | 't' :: rest =>
      if "rue".data.isPrefixOf rest then some (Json.bool true, rest.drop 3) else none
    | 'f' :: rest =>
      if "alse".data.isPrefixOf rest then some (Json.bool false, rest.drop 4) else none
    | 'n' :: rest =>
      if "ull".data.isPrefixOf rest then some (Json.null, rest.drop 3) else none
    | _ => (lexNum l).map (fun p => (Json.num p.1, p.2))

/-- Members of an object after `{` (and whitespace). -/
def parseMembers : Nat → List Char → Bool → List (List Char × Json) →
    Option (Json × List Char)
  | 0, _, _, _ => none
  | fuel + 1, l, isFirst, acc =>
    match l with
    | '}' :: rest => if isFirst then some (Json.obj acc.reverse, rest) else none
    | '"' :: rest =>
      match strBody rest with
      | none => none
      | some (key, r1) =>
        match skipWs r1 with
        | ':' :: r2 =>
          match parseVal fuel (skipWs r2) with
          | none => none
          | some (v, r3) =>
            match skipWs r3 with
            | ',' :: r4 => parseMembers fuel (skipWs r4) false ((key, v) :: acc)
            | '}' :: r4 => some (Json.obj ((key, v) :: acc).reverse, r4)
            | _ => none
        | _ => none
    | _ => none

/-- Items of an array after `[` (and whitespace). -/
def parseItems : Nat → List Char → Bool → List Json → Option (Json × List Char)
  | 0, _, _, _ => none
  | fuel + 1, l, isFirst, acc =>
    match l with
    | ']' :: rest => if isFirst then some (Json.arr acc.reverse, rest) else none
    | _ =>
      match parseVal fuel l with
      | none => none
      | some (v, r1) =>
        match skipWs r1 with
        | ',' :: r2 => parseItems fuel (skipWs r2) false (v :: acc)
        | ']' :: r2 => some (Json.arr (v :: acc).reverse, r2)
        | _ => none

end

/-- `json.loads`: a single JSON value with only whitespace around it.  The
fuel is ample: the parser consumes at least one character between two
nested calls. -/
def jsonLoads (l : List Char) : Option Json :=
  match parseVal (2 * l.length + 8) (skipWs l) with
  | some (v, rest) => if (skipWs rest).isEmpty then some v else none
  | none => none

/-- Python truthiness of a decoded JSON value (`0`/`0.0` variants are
falsy: no nonzero digit in the mantissa). -/
def jTruthy : Json → Bool
  | .null => false
  | .bool b => b
  | .num lex => (lex.takeWhile (fun c => c ≠ 'e' ∧ c ≠ 'E')).any
      (fun c => isDigitC c && c ≠ '0')
  | .str s => !s.isEmpty
  | .arr xs => !xs.isEmpty
  | .obj fs => !fs.isEmpty

/-- Dictionary lookup (`json` keeps the last duplicate key). -/
def jGet (fs : List (List Char × Json)) (k : List Char) : Option Json :=
  List.lookup k fs.reverse

/-- `d.get(k, default)`. -/
def jGetD (fs : List (List Char × Json)) (k : List Char) (dflt : Json) : Json :=
  (jGet fs k).getD dflt

/-- `d['message'] = v` (all duplicates are overwritten, so `jGet` agrees
with the dict model). -/
def setMessageField (fs : List (List Char × Json)) (v : Json) :
    List (List Char × Json) :=
  fs.map (fun p => if p.1 = "message".data then (p.1, v) else p)

/-- `str(x)` on a decoded value, as used by the f-strings.  The container
cases are loose approximations of `repr`; no claim depends on them. -/
def pyStr : Json → List Char
  | .str s => s
  | .bool true => "True".data
  | .bool false => "False".data
  | .null => "None".data
  | .num lex => lex
  | .arr _ => '[' :: ']' :: []
  | .obj _ => Char.ofNat 123 :: Char.ofNat 125 :: []

/-! ## `parse_json_response` (src/public/app.py lines 184-218) -/

/-- Python slice `l[:(len-n)]`, the tail-trimming part of `l[a:-n]`. -/
def dropLastN (l : List Char) (n : Nat) : List Char := l.take (l.length - n)

/-- `re.search(r'\{.*\}', l, re.DOTALL)`: greedy, so the match runs from
the first `{` to the last `}` (a match exists iff some `}` occurs strictly
after the first `{`). -/
def extractSpan (l : List Char) : Option (List Char) :=
  let l1 := l.dropWhile (fun c => c ≠ '{')
  let span := (l1.reverse.dropWhile (fun c => c ≠ '}')).reverse
  if 2 ≤ span.length then some span else none

/-- The `'message' in parsed_data and parsed_data['message']` cleanup step;
`none` models the `TypeError`s the step can raise (caught by the caller's
`except`, which turns them into a `None` result). -/
def postMessage : Json → Option Json
  | .obj fs =>
    (match jGet fs "message".data with
     | some v =>
       if jTruthy v then
         match v with
         | .str s => some (.obj (setMessageField fs (.str (strip_html_tags s))))
         | _ => none
       else some (.obj fs)
     | none => some (.obj fs))
  | .str s => if containsSub "message".data s then none else some (.str s)
  | .arr xs =>
    if xs.any (fun x =>
        match x with
        | .str s => s = "message".data
        | _ => false) then none
    else some (.arr xs)
  | _ => none

/-- `parse_json_response(response_text)` of `src/public/app.py`.  Any
exception inside (JSON decoding, the message cleanup) yields `None`. -/
def parse_json_response (response_text : List Char) : Option Json :=
  let c0 := pyStrip response_text
  let c1 :=
    if "```json".data.isPrefixOf c0 then dropLastN (c0.drop 7) 3
    else if "```".data.isPrefixOf c0 then dropLastN (c0.drop 3) 3
    else c0
  let c2 :=
    match extractSpan c1 with
    | some s => s
    | none => c1
  match jsonLoads (pyStrip c2) with
  | none => none
  | some j => postMessage j

/-- Modelled from the spec: "extracting the first balanced `{...}` span
before parsing" — the span from the first `{` to the brace closing it,
counting nesting depth over raw characters.  (The code has no such
function; this is the spec's description, used to compare against
`extractSpan`.) -/
def specBalancedAux : List Char → Nat → List Char → Option (List Char)
  | [], _, _ => none
  | c :: rest, depth, acc =>
    if c = '{' then specBalancedAux rest (depth + 1) (c :: acc)
    else if c = '}' then
      if depth = 1 then some ((c :: acc).reverse)
      else specBalancedAux rest (depth - 1) (c :: acc)
    else specBalancedAux rest depth (c :: acc)

/-- Modelled from the spec: the first balanced `{...}` span of the text. -/
def specFirstBalanced (l : List Char) : Option (List Char) :=
  specBalancedAux (l.dropWhile (fun c => c ≠ '{')) 0 []

/-! ## Reminder store and `process_reminder_data`
(src/public/app.py lines 430-485, 692-716) -/

/-- A stored reminder.  Pipeline-created reminders have string `date`/
`time` fields; manual creation stores whatever JSON value the client sent.
The wall-clock `created_at` timestamp is not modelled: no claim observes
it. -/
structure Reminder where
  id : Nat
  title : Json
  date : Json
  time : Json
  description : Json
  completed : Bool

/-- `convert_date_to_iso` applied to a candidate `date` field of any JSON
type: a falsy value hits `if not date_str: return today`, a truthy
non-string raises (`.lower()` on a non-string). -/
def pyConvertDate (v : Json) (today : Date) : Option Date :=
  match v with
  | .str s => convert_date_to_iso s today
  | other => if jTruthy other then none else some today

/-- `convert_time_to_24h` applied to a candidate `time` field of any JSON
type; outer `none` is a raised exception, inner `none` is Python `None`. -/
def pyConvertTime (v : Json) (cd : TempRef) : Option (Option (List Char)) :=
  match v with
  | .str s => some (convert_time_to_24h s cd)
  | other => if jTruthy other then none else some none

/-- Outcome of `process_reminder_data`: `skipped` is the `return None`
path, `rejected` an error dict (only its `error` entry is ever read by the
caller), `stored` a reminder appended to the store. -/
inductive ProcResult
  | skipped
  | rejected (error : Json)
  | stored (r : Reminder)

/-- `process_reminder_data(reminder_data, current_datetime)` together with
its effect on `reminders_storage`; outer `none` models an uncaught
exception escaping to the caller. -/
def process_reminder_data (rd : Json) (cd : TempRef) (storage : List Reminder) :
    Option (ProcResult × List Reminder) :=
  if !jTruthy rd then some (.skipped, storage)
  else
    match rd with
    | .obj fs =>
      let errv := jGetD fs "error".data .null
      if jTruthy errv then some (.rejected errv, storage)
      else
        match pyConvertDate (jGetD fs "date".data (.str "today".data)) cd.isoDate with
        | none => none
        | some iso_date =>
          match pyConvertTime (jGetD fs "time".data .null) cd with
          | none => none
          | some converted_time =>
            match validate_datetime iso_date converted_time cd with
            | some verr => some (.rejected (.str verr), storage)
            | none =>
              let r : Reminder :=
                { id := storage.length + 1,
                  title := jGetD fs "title".data (.str "Reminder".data),
                  date := .str (isoString iso_date),
                  time := (match converted_time with
                           | some t => .str t
                           | none => .null),
                  description := jGetD fs "description".data (.str []),
                  completed := false }
              some (.stored r, storage ++ [r])
    | _ => none

/-- The manual-creation request body (`POST /api/reminders`); `none` means
the key is absent (`data.get` then supplies the default). -/
structure ManualReq where
  title : Option Json
  date : Option Json
  time : Option Json
  description : Option Json

/-- `create_manual_reminder` (lines 692-716): stores the client data with
no validation at all.  `wallToday` is `datetime.now().date()`, used only
as the default date. -/
def create_manual_reminder (req : ManualReq) (wallToday : Date)
    (storage : List Reminder) : Reminder × List Reminder :=
  let r : Reminder :=
    { id := storage.length + 1,
      title := req.title.getD (.str []),
      date := req.date.getD (.str (isoString wallToday)),
      time := req.time.getD .null,
      description := req.description.getD (.str []),
      completed := false }
  (r, storage ++ [r])

/-- One insertion request against the store: a pipeline candidate or a
manual creation. -/
inductive StoreOp
  | pipeline (rd : Json) (cd : TempRef)
  | manual (req : ManualReq) (wallToday : Date)

/-- Effect of one request on `reminders_storage` (a pipeline op whose
processing raises or rejects leaves the store as `process_reminder_data`
left it). -/
def applyOp (storage : List Reminder) : StoreOp → List Reminder
  | .pipeline rd cd =>
    match process_reminder_data rd cd storage with
    | some (_, st) => st
    | none => storage
  | .manual req wallToday => (create_manual_reminder req wallToday storage).2

/-- The store after a sequence of requests, starting empty. -/
def runOps (ops : List StoreOp) : List Reminder := ops.foldl applyOp []

/-! ## The `/api/chat` handler (src/public/app.py lines 487-619) -/

/-- The request fields the handler's result depends on.  `user_id` and
`conversation_history` only feed the prompt text handed to the generation
capability, which the oracle below abstracts, so they are omitted. -/
structure ChatRequest where
  message : List Char
  session_id : List Char
  current_datetime : TempRef
  is_new_conversation : Bool

/-- The two generation-capability outputs observed by one request.
`chatRaw = none`: `safe_api_call` for the intent stage raised (after its
retries), caught by the outer handler (HTTP 500).  `dataRaw = none`: the
extraction stage raised, caught by the data branch's `except` (reminder
silently skipped). -/
structure GenOracle where
  chatRaw : Option (List Char)
  dataRaw : Option (List Char)

/-- The JSON response payload of a successful `/api/chat` call. -/
structure ChatResponse where
  message : Json
  trigger : Json
  session_id : List Char
  title : Option Json
  reminder_created : Option Reminder
  error : Option Json

/-- Handler outcome: 400 for an empty message, 500 for an uncaught
exception, otherwise the payload. -/
inductive ChatResult
  | badRequest
  | serverError
  | ok (r : ChatResponse)

def triggerKeywords : List (List Char) :=
  ["remind".data, "reminder".data, "remember".data, "schedule".data,
   "appointment".data, "meeting".data]

/-- Python `str.split()` (split on whitespace runs, no empty words). -/
def wordsOf (l : List Char) : List (List Char) :=
  match h : l.dropWhile isWs with
  | [] => []
  | w :: t => (w :: t).takeWhile (fun c => !isWs c)
      :: wordsOf ((w :: t).dropWhile (fun c => !isWs c))
termination_by l.length
decreasing_by
  have h1 : (l.dropWhile isWs).length ≤ l.length := (List.dropWhile_sublist _).length_le
  rw [h] at h1
  have h2 : ((w :: t).dropWhile (fun c => !isWs c)).length ≤ (w :: t).length :=
    (List.dropWhile_sublist _).length_le
  -- the first word is nonempty: `w` is not whitespace, so dropWhile eats < all
  have h3 : ((w :: t).dropWhile (fun c => !isWs c)).length < (w :: t).length ∨
      ((w :: t).dropWhile (fun c => !isWs c)).length = (w :: t).length := by omega
  have hw : isWs w = false := by
    have := List.head?_dropWhile_not isWs l
    rw [h] at this
    simpa using this
  cases h3 with
  | inl hlt => simp only [List.length_cons] at h1 hlt ⊢; omega
  | inr heq =>
    exfalso
    have : (w :: t).dropWhile (fun c => !isWs c) = (w :: t).dropWhile (fun c => !isWs c) := rfl
    rw [List.dropWhile_cons] at this
    simp [hw] at this
    have h4 : ((w :: t).dropWhile (fun c => !isWs c)).length ≤ t.length := by
      conv_lhs => rw [List.dropWhile_cons]
      simp [hw]
      exact (List.dropWhile_sublist _).length_le
    simp only [List.length_cons] at heq
    omega

/-- `' '.join(words)`. -/
def joinSpace : List (List Char) → List Char
  | [] => []
  | [w] => w
  | w :: ws => w ++ ' ' :: joinSpace ws

/-- Title fallback for new conversations: the first four words of the
message, or "New Chat". -/
def fallbackTitle (msg : List Char) : List Char :=
  let ws := (wordsOf msg).take 4
  if ws.isEmpty then "New Chat".data else joinSpace ws

/-- The synthesized reply when the intent stage's output fails to decode. -/
def fallbackMessage (msg : List Char) : List Char :=
  "I understand your message: ".data ++ apostrophe :: msg
    ++ apostrophe :: ". How can I help you?".data

/-- Lines 552-569: build `response_data` from the decoded intent object;
`none` models the `TypeError` when the `message` field is a truthy
non-string (caught by the outer handler). -/
def intentResp (req : ChatRequest) (cfs : List (List Char × Json)) :
    Option ChatResponse :=
  let ai := jGetD cfs "message".data (.str "I understand your message.".data)
  let cleaned : Option Json :=
    match ai with
    | .str s => some (.str (strip_html_tags s))
    | other => if jTruthy other then none else some other
  match cleaned with
  | none => none
  | some msgv =>
    let base : ChatResponse :=
      { message := msgv,
        trigger := jGetD cfs "trigger".data (.bool false),
        session_id := req.session_id,
        title := none, reminder_created := none, error := none }
    some (if req.is_new_conversation then
            if jTruthy (jGetD cfs "title".data .null) then
              { base with title := some (jGetD cfs "title".data .null) }
            else { base with title := some (.str (fallbackTitle req.message)) }
          else base)

/-- Outcome of the data branch (lines 574-613). -/
inductive DataOutcome
  | nothingD
  | rejectedD (e : Json)
  | storedD (r : Reminder)

/-- The data branch: extraction call, decode, candidate processing.  Every
exception inside is caught by the branch's `except`, leaving the response
unchanged. -/
def dataStep (cd : TempRef) (dataRaw : Option (List Char)) (storage : List Reminder) :
    DataOutcome × List Reminder :=
  match dataRaw with
  | none => (.nothingD, storage)
  | some raw =>
    match parse_json_response raw with
    | none => (.nothingD, storage)
    | some rd =>
      if !jTruthy rd then (.nothingD, storage)
      else
        match process_reminder_data rd cd storage with
        | none => (.nothingD, storage)
        | some (.skipped, st) => (.nothingD, st)
        | some (.rejected e, st) => (.rejectedD e, st)
        | some (.stored r, st) => (.storedD r, st)

/-- `f"Sorry, I couldn't set that reminder: {error}"`. -/
def sorryMsg (e : Json) : List Char :=
  "Sorry, I couldn".data ++ apostrophe :: "t set that reminder: ".data ++ pyStr e

/-- The `/api/chat` handler: request, generation outputs, session store and
reminder store in; result, session store and reminder store out. -/
def chat (req : ChatRequest) (oracle : GenOracle) (sessions : List (List Char))
    (storage : List Reminder) : ChatResult × List (List Char) × List Reminder :=
  if req.message.isEmpty then (.badRequest, sessions, storage)
  else
    let sessions2 := if req.session_id ∈ sessions then sessions
                     else sessions ++ [req.session_id]
    match oracle.chatRaw with
    | none => (.serverError, sessions2, storage)
    | some craw =>
      match parse_json_response craw with
      | none =>
        let fb := strip_html_tags (fallbackMessage req.message)
        let trig := triggerKeywords.any (fun w => containsSub w (strLower req.message))
        let resp : ChatResponse :=
          { message := .str fb, trigger := .bool trig, session_id := req.session_id,
            title := if req.is_new_conversation then some (.str (fallbackTitle req.message))
                     else none,
            reminder_created := none, error := none }
        (.ok resp, sessions2, storage)
      | some chatData =>
        match chatData with
        | .obj cfs =>
          match intentResp req cfs with
          | none => (.serverError, sessions2, storage)
          | some resp0 =>
            if jTruthy (jGetD cfs "trigger".data .null) then
              match dataStep req.current_datetime oracle.dataRaw storage with
              | (.nothingD, st) => (.ok resp0, sessions2, st)
              | (.rejectedD e, st) =>
                (.ok { resp0 with
                         message := .str (sorryMsg e),
                         trigger := .bool false,
                         error := some e },
                 sessions2, st)
              | (.storedD r, st) =>
                (.ok { resp0 with reminder_created := some r }, sessions2, st)
            else (.ok resp0, sessions2, storage)
        | _ => (.serverError, sessions2, storage)

/-! ## `GET /api/reminders` (src/public/app.py lines 639-690) -/

/-- The parsed date of a stored reminder, as the listing loop sees it:
`none` when the field is falsy (skipped) or unparseable (the `except`
`continue`s). -/
def reminderDateOf (r : Reminder) : Option Date :=
  match r.date with
  | .str s =>
    if s.isEmpty then none
    else isoParse (if containsSub "T".data s then s.takeWhile (fun c => c ≠ 'T') else s)
  | _ => none

/-- `get_reminders()`: today's and upcoming (today ≤ d ≤ today+7) open
reminders plus the raw store; `none` models the 500 response when
computing `today + timedelta(days=7)` raises. -/
def get_reminders (today : Date) (storage : List Reminder) :
    Option (List Reminder × List Reminder × List Reminder) :=
  match addDays today 7 with
  | none => none
  | some next_week =>
    some (storage.filter (fun r =>
            !r.completed && (match reminderDateOf r with
                             | some d => d == today
                             | none => false)),
          storage.filter (fun r =>
            !r.completed && (match reminderDateOf r with
                             | some d => dateLe today d && dateLe d next_week
                             | none => false)),
          storage)

/-! ## Calendar arithmetic lemmas -/

theorem daysInMonth_pos (y m : Nat) (h1 : 1 ≤ m) (h2 : m ≤ 12) :
    1 ≤ daysInMonth y m := by
  interval_cases m <;> simp [daysInMonth] <;> split <;> omega

theorem daysInMonth_le (y m : Nat) : daysInMonth y m ≤ 31 := by
  unfold daysInMonth
  split <;> first | omega | (split <;> omega)

theorem nextDay_validB {dt e : Date} (hv : dt.validB = true) (h : nextDay dt = some e) :
    e.validB = true := by
  simp only [Date.validB, Bool.and_eq_true, decide_eq_true_eq] at hv
  obtain ⟨⟨⟨⟨⟨h1, h2⟩, h3⟩, h4⟩, h5⟩, h6⟩ := hv
  unfold nextDay at h
  split at h
  · cases h
    simp only [Date.validB, Bool.and_eq_true, decide_eq_true_eq]
    omega
  · split at h
    · cases h
      simp only [Date.validB, Bool.and_eq_true, decide_eq_true_eq]
      have := daysInMonth_pos dt.year (dt.month + 1) (by omega) (by omega)
      omega
    · split at h
      · cases h
        simp only [Date.validB, Bool.and_eq_true, decide_eq_true_eq, daysInMonth]
        omega
      · cases h

theorem daysBeforeMonth_succ (y m : Nat) (h1 : 1 ≤ m) (h2 : m ≤ 11) :
    daysBeforeMonth y (m + 1) = daysBeforeMonth y m + daysInMonth y m := by
  interval_cases m <;>
    by_cases hL : isLeap y = true <;>
      simp [daysBeforeMonth, daysInMonth, hL]

theorem toOrdinal_year_step (y : Nat) (h1 : 1 ≤ y) :
    Date.toOrdinal ⟨y + 1, 1, 1⟩ = Date.toOrdinal ⟨y, 12, 31⟩ + 1 := by
  obtain ⟨k, rfl⟩ : ∃ k, y = k + 1 := ⟨y - 1, by omega⟩
  simp only [Date.toOrdinal, daysBeforeMonth, Nat.add_sub_cancel, isLeap]
  norm_num
  rw [Nat.succ_div k 4, Nat.succ_div k 100, Nat.succ_div k 400]
  split_ifs <;> omega

theorem toOrdinal_nextDay {dt e : Date} (hv : dt.validB = true) (h : nextDay dt = some e) :
    e.toOrdinal = dt.toOrdinal + 1 := by
  simp only [Date.validB, Bool.and_eq_true, decide_eq_true_eq] at hv
  obtain ⟨⟨⟨⟨⟨h1, h2⟩, h3⟩, h4⟩, h5⟩, h6⟩ := hv
  unfold nextDay at h
  split at h
  · cases h
    simp only [Date.toOrdinal]
    omega
  · rename_i hlt
    have hday : dt.day = daysInMonth dt.year dt.month := by omega
    split at h
    · cases h
      simp only [Date.toOrdinal]
      rw [daysBeforeMonth_succ dt.year dt.month h3 (by omega)]
      omega
    · split at h
      · cases h
        rename_i hm12 hy
        have hm : dt.month = 12 := by omega
        have hd : dt.day = 31 := by rw [hday, hm]; rfl
        have hdt : dt = ⟨dt.year, 12, 31⟩ := by
          cases dt; simp_all
        conv_rhs => rw [hdt]
        exact toOrdinal_year_step dt.year h1
      · cases h

theorem addDays_succ (dt : Date) (n : Nat) :
    addDays dt (n + 1) = (addDays dt n).bind nextDay := by
  cases h : addDays dt n <;> simp [addDays, h]

theorem addDays_spec {dt e : Date} {n : Nat} (hv : dt.validB = true)
    (h : addDays dt n = some e) :
    e.validB = true ∧ e.toOrdinal = dt.toOrdinal + n := by
  induction n generalizing e with
  | zero => cases h; exact ⟨hv, rfl⟩
  | succ n ih =>
    rw [addDays_succ] at h
    cases hf : addDays dt n with
    | none => rw [hf] at h; cases h
    | some f =>
      rw [hf] at h
      have h2 : nextDay f = some e := h
      obtain ⟨hfv, hfo⟩ := ih hf
      exact ⟨nextDay_validB hfv h2, by rw [toOrdinal_nextDay hfv h2, hfo]; omega⟩

theorem addDays_add (dt : Date) (a b : Nat) :
    addDays dt (a + b) = (addDays dt a).bind (fun e => addDays e b) := by
  induction b with
  | zero => cases h : addDays dt a <;> simp [addDays, h]
  | succ b ih =>
    show addDays dt (a + b + 1) = _
    rw [addDays_succ, ih]
    cases h : addDays dt a <;> simp [addDays_succ]

/-! ## Decimal formatting round-trips -/

theorem digitVal_digitChar {d : Nat} (h : d < 10) : digitVal (digitChar d) = d := by
  interval_cases d <;> decide

theorem isDigitC_digitChar {d : Nat} (h : d < 10) : isDigitC (digitChar d) = true := by
  interval_cases d <;> decide

theorem fmt2_eq {n : Nat} (h : n ≤ 99) :
    fmt2 n = [digitChar (n / 10), digitChar (n % 10)] := by
  unfold fmt2 decDigits
  split_ifs with h1 h2 h3 <;> try omega
  · have e1 : n / 10 = 0 := by omega
    have e2 : n % 10 = n := by omega
    rw [e1, e2]
    rfl
  · rfl

theorem fmt4_eq {n : Nat} (h : n ≤ 9999) :
    fmt4 n = [digitChar (n / 1000), digitChar (n / 100 % 10),
              digitChar (n / 10 % 10), digitChar (n % 10)] := by
  unfold fmt4 decDigits
  split_ifs with h1 h2 h3 h4 h5 h6 h7 <;> try omega
  · have e1 : n / 1000 = 0 := by omega
    have e2 : n / 100 % 10 = 0 := by omega
    have e3 : n / 10 % 10 = 0 := by omega
    have e4 : n % 10 = n := by omega
    rw [e1, e2, e3, e4]
    rfl
  · have e1 : n / 1000 = 0 := by omega
    have e2 : n / 100 % 10 = 0 := by omega
    have e3 : n / 10 % 10 = n / 10 := by omega
    rw [e1, e2, e3]
    rfl
  · have e1 : n / 1000 = 0 := by omega
    have e2 : n / 100 % 10 = n / 100 := by omega
    rw [e1, e2]
    rfl
  · have e1 : n / 1000 % 10 = n / 1000 := by omega
    rw [e1]

/-! ## Formatting and parsing round-trips -/

theorem digitChar_isDigit {d : Nat} (h : d < 10) : isDigitC (digitChar d) = true := by
  interval_cases d <;> decide

theorem digitChar_not_ws {d : Nat} (h : d < 10) : isWs (digitChar d) = false := by
  interval_cases d <;> decide

theorem digitChar_ne_colon {d : Nat} (h : d < 10) : digitChar d ≠ ':' := by
  interval_cases d <;> decide

theorem digitChar_ne_minus {d : Nat} (h : d < 10) : digitChar d ≠ '-' := by
  interval_cases d <;> decide

theorem digitChar_ne_plus {d : Nat} (h : d < 10) : digitChar d ≠ '+' := by
  interval_cases d <;> decide

theorem natOfDigits_fmt2 {n : Nat} (h : n ≤ 99) : natOfDigits (fmt2 n) = n := by
  rw [fmt2_eq h]
  simp only [natOfDigits, List.foldl_cons, List.foldl_nil]
  rw [digitVal_digitChar (by omega), digitVal_digitChar (by omega)]
  omega

theorem pyStrip_no_ws {l : List Char} (h : ∀ c ∈ l, isWs c = false) : pyStrip l = l := by
  unfold pyStrip
  have h1 : l.dropWhile isWs = l := by
    cases l with
    | nil => rfl
    | cons c cs =>
      rw [List.dropWhile_cons]
      simp [h c (by simp)]
  rw [h1]
  have h2 : l.reverse.dropWhile isWs = l.reverse := by
    cases hr : l.reverse with
    | nil => rfl
    | cons c cs =>
      rw [List.dropWhile_cons]
      have : c ∈ l := by
        have : c ∈ l.reverse := by rw [hr]; simp
        simpa using this
      simp [h c this]
  rw [h2, List.reverse_reverse]

theorem fmt2_not_ws {n : Nat} (h : n ≤ 99) : ∀ c ∈ fmt2 n, isWs c = false := by
  rw [fmt2_eq h]
  intro c hc
  simp only [List.mem_cons, List.not_mem_nil, or_false] at hc
  rcases hc with rfl | rfl
  · exact digitChar_not_ws (by omega)
  · exact digitChar_not_ws (by omega)

theorem pyInt_fmt2 {n : Nat} (h : n ≤ 99) : pyInt (fmt2 n) = some (n : Int) := by
  have hds := fmt2_eq h
  unfold pyInt
  rw [pyStrip_no_ws (fmt2_not_ws h), hds]
  dsimp only
  rw [if_neg (digitChar_ne_minus (show n / 10 < 10 by omega)),
    if_neg (digitChar_ne_plus (show n / 10 < 10 by omega)),
    if_pos (by
      simp [digitChar_isDigit (show n / 10 < 10 by omega),
        digitChar_isDigit (show n % 10 < 10 by omega)])]
  rw [← hds, natOfDigits_fmt2 h]

theorem fmtHM_take {h m : Nat} (hh : h ≤ 99) :
    (fmtHM h m).takeWhile (fun c => c ≠ ':') = fmt2 h := by
  unfold fmtHM
  rw [fmt2_eq hh]
  simp [List.takeWhile, digitChar_ne_colon (show h / 10 < 10 by omega),
    digitChar_ne_colon (show h % 10 < 10 by omega)]

theorem fmtHM_drop {h m : Nat} (hh : h ≤ 99) :
    (fmtHM h m).dropWhile (fun c => c ≠ ':') = ':' :: fmt2 m := by
  unfold fmtHM
  rw [fmt2_eq hh]
  simp [List.dropWhile, digitChar_ne_colon (show h / 10 < 10 by omega),
    digitChar_ne_colon (show h % 10 < 10 by omega)]

theorem isoParse_valid {l : List Char} {d : Date} (h : isoParse l = some d) :
    d.validB = true := by
  unfold isoParse at h
  split at h
  · split at h
    · split at h
      · rename_i hv
        cases h
        exact hv
      · cases h
    · cases h
  · cases h

theorem isoParse_isoString {d : Date} (h : d.validB = true) :
    isoParse (isoString d) = some d := by
  have hb := h
  simp only [Date.validB, Bool.and_eq_true, decide_eq_true_eq] at hb
  obtain ⟨⟨⟨⟨⟨h1, h2⟩, h3⟩, h4⟩, h5⟩, h6⟩ := hb
  have hd31 := daysInMonth_le d.year d.month
  unfold isoString
  rw [fmt4_eq h2, fmt2_eq (show d.month ≤ 99 by omega), fmt2_eq (show d.day ≤ 99 by omega)]
  show isoParse [digitChar (d.year / 1000), digitChar (d.year / 100 % 10),
    digitChar (d.year / 10 % 10), digitChar (d.year % 10), '-',
    digitChar (d.month / 10), digitChar (d.month % 10), '-',
    digitChar (d.day / 10), digitChar (d.day % 10)] = some d
  unfold isoParse
  dsimp only
  rw [if_pos (by
    simp only [digitChar_isDigit (show d.year / 1000 < 10 by omega),
      digitChar_isDigit (show d.year / 100 % 10 < 10 by omega),
      digitChar_isDigit (show d.year / 10 % 10 < 10 by omega),
      digitChar_isDigit (show d.year % 10 < 10 by omega),
      digitChar_isDigit (show d.month / 10 < 10 by omega),
      digitChar_isDigit (show d.month % 10 < 10 by omega),
      digitChar_isDigit (show d.day / 10 < 10 by omega),
      digitChar_isDigit (show d.day % 10 < 10 by omega)]
    rfl)]
  have hy : natOfDigits [digitChar (d.year / 1000), digitChar (d.year / 100 % 10),
      digitChar (d.year / 10 % 10), digitChar (d.year % 10)] = d.year := by
    simp only [natOfDigits, List.foldl_cons, List.foldl_nil]
    rw [digitVal_digitChar (by omega), digitVal_digitChar (by omega),
      digitVal_digitChar (by omega), digitVal_digitChar (by omega)]
    omega
  have hm : natOfDigits [digitChar (d.month / 10), digitChar (d.month % 10)] = d.month := by
    simp only [natOfDigits, List.foldl_cons, List.foldl_nil]
    rw [digitVal_digitChar (by omega), digitVal_digitChar (by omega)]
    omega
  have hdd : natOfDigits [digitChar (d.day / 10), digitChar (d.day % 10)] = d.day := by
    simp only [natOfDigits, List.foldl_cons, List.foldl_nil]
    rw [digitVal_digitChar (by omega), digitVal_digitChar (by omega)]
    omega
  simp only [hy, hm, hdd]
  have : (⟨d.year, d.month, d.day⟩ : Date) = d := by cases d; rfl
  rw [this, if_pos h]

/-! ## The past-time validator -/

theorem fmt2_take_colon {m : Nat} (hm : m ≤ 99) :
    (fmt2 m).takeWhile (fun c => c ≠ ':') = fmt2 m := by
  rw [fmt2_eq hm]
  simp [List.takeWhile, digitChar_ne_colon (show m / 10 < 10 by omega),
    digitChar_ne_colon (show m % 10 < 10 by omega)]

theorem validate_core_spec (rdate : Date) (rh rm : Nat) (now : TempRef) :
    (validate_core rdate rh rm now = none ↔
      (dateLt now.isoDate rdate = true ∨
        (rdate = now.isoDate ∧
          (now.hour < rh ∨ (now.hour = rh ∧ now.minute < rm))))) ∧
    (rdate = now.isoDate →
      (rh < now.hour ∨ (rh = now.hour ∧ rm ≤ now.minute)) →
      validate_core rdate rh rm now = some (pastTimeMsg now rh rm)) ∧
    (dateLt rdate now.isoDate = true →
      validate_core rdate rh rm now = some (pastDateMsg now rdate)) := by
  obtain ⟨ry, rmo, rdy⟩ := rdate
  obtain ⟨⟨ny, nmo, ndy⟩, nh, nm⟩ := now
  simp only [validate_core, dtLe, dateLt, timeLe, Date.mk.injEq]
  refine ⟨?_, ?_, ?_⟩
  · split_ifs with h1 h2 h3 <;>
      simp_all [Date.mk.injEq] <;> omega
  · intro he hle
    obtain ⟨rfl, rfl, rfl⟩ := he
    split_ifs with h1 h3 <;> simp_all <;> omega
  · intro hlt
    split_ifs with h1 h2 h3 <;> simp_all [Date.mk.injEq] <;> omega

/-- C1 building block: the string round-trip of the time argument.  For
`t = some (h, m)` within range, `validate_datetime` parses `fmtHM h m`
back to `(h, m)`; for `t = none` it uses the 09:00 default. -/
theorem validate_datetime_reduce (rdate : Date) (t : Option (Nat × Nat)) (now : TempRef)
    (hnh : now.hour ≤ 23) (hnm : now.minute ≤ 59)
    (ht : ∀ p ∈ t, p.1 ≤ 23 ∧ p.2 ≤ 59) :
    validate_datetime rdate (t.map (fun p => fmtHM p.1 p.2)) now =
      validate_core rdate (t.getD (9, 0)).1 (t.getD (9, 0)).2 now := by
  unfold validate_datetime
  rw [if_neg (by omega)]
  cases t with
  | none => rfl
  | some p =>
    obtain ⟨h, m⟩ := p
    obtain ⟨hh, hm⟩ := ht (h, m) (by simp)
    simp only at hh hm
    dsimp only [Option.map]
    rw [fmtHM_drop (by omega : h ≤ 99)]
    dsimp only
    rw [fmtHM_take (by omega : h ≤ 99), fmt2_take_colon (by omega : m ≤ 99),
      pyInt_fmt2 (by omega : h ≤ 99), pyInt_fmt2 (by omega : m ≤ 99)]
    dsimp only
    rw [if_pos (by constructor; omega; constructor; omega; constructor; omega; omega)]
    simp [Int.toNat_natCast]

/-- C1: for every valid ISO date (parsed as `rdate`), optional in-range
"HH:MM" time and valid temporal reference, `validate_datetime` accepts
exactly when the composed instant (defaulting to 09:00 when the time is
absent) is strictly after now's instant; same date with time-of-day ≤ now
yields the "past time" error naming both times; a date strictly before
now's yields the "past date" error naming both dates, whatever the time;
and a candidate whose `time` is absent is stored with `time` still absent. -/
theorem validate_datetime_pastness
    (rdate : Date) (t : Option (Nat × Nat)) (now : TempRef)
    (hnh : now.hour ≤ 23) (hnm : now.minute ≤ 59)
    (ht : ∀ p ∈ t, p.1 ≤ 23 ∧ p.2 ≤ 59) :
    (validate_datetime rdate (t.map (fun p => fmtHM p.1 p.2)) now = none ↔
      (dateLt now.isoDate rdate = true ∨
        (rdate = now.isoDate ∧
          (now.hour < (t.getD (9, 0)).1 ∨
            (now.hour = (t.getD (9, 0)).1 ∧ now.minute < (t.getD (9, 0)).2))))) ∧
    (rdate = now.isoDate →
      ((t.getD (9, 0)).1 < now.hour ∨
        ((t.getD (9, 0)).1 = now.hour ∧ (t.getD (9, 0)).2 ≤ now.minute)) →
      validate_datetime rdate (t.map (fun p => fmtHM p.1 p.2)) now =
        some (pastTimeMsg now (t.getD (9, 0)).1 (t.getD (9, 0)).2)) ∧
    (dateLt rdate now.isoDate = true →
      validate_datetime rdate (t.map (fun p => fmtHM p.1 p.2)) now =
        some (pastDateMsg now rdate)) ∧
    (∀ fs storage r st',
      jGetD fs "time".data .null = .null →
      process_reminder_data (.obj fs) now storage = some (.stored r, st') →
      r.time = .null) := by
  rw [validate_datetime_reduce rdate t now hnh hnm ht]
  obtain ⟨hc1, hc2, hc3⟩ :=
    validate_core_spec rdate (t.getD (9, 0)).1 (t.getD (9, 0)).2 now
  refine ⟨hc1, hc2, hc3, ?_⟩
  intro fs storage r st' htime hproc
  unfold process_reminder_data at hproc
  split at hproc
  · cases hproc
  · dsimp only at hproc
    rw [htime] at hproc
    split at hproc
    · cases hproc
    · split at hproc
      · cases hproc
      · rw [show pyConvertTime Json.null now = some none from rfl] at hproc
        dsimp only at hproc
        split at hproc
        · simp at hproc
        · simp only [Option.some_inj, Prod.mk.injEq] at hproc
          obtain ⟨hr, hst⟩ := hproc
          injection hr with hrec
          rw [← hrec]

/-- Witness for C1 at a concrete input: now = 2024-06-10 09:00, reminder
the same day at 08:30 → the exact "past time" message. -/
theorem validate_datetime_pastness_witness :
    validate_datetime ⟨2024, 6, 10⟩ (some (fmtHM 8 30)) ⟨⟨2024, 6, 10⟩, 9, 0⟩ =
      some (pastTimeMsg ⟨⟨2024, 6, 10⟩, 9, 0⟩ 8 30) := by
  have h := (validate_datetime_pastness ⟨2024, 6, 10⟩ (some (8, 30))
    ⟨⟨2024, 6, 10⟩, 9, 0⟩ (by decide) (by decide)
    (by intro p hp; cases hp; exact ⟨by decide, by decide⟩)).2.1 rfl (by left; decide)
  simpa using h

/-! ## Weekday resolution -/

theorem weekday_lt (dt : Date) : dt.weekday < 7 := Nat.mod_lt _ (by norm_num)

theorem weekAheadDelta_spec (target : Nat) (today : Date) (ht : target < 7) :
    1 ≤ weekAheadDelta target today ∧ weekAheadDelta target today ≤ 7 ∧
    (today.weekday + weekAheadDelta target today) % 7 = target ∧
    (today.weekday = target → weekAheadDelta target today = 7) := by
  have hw := weekday_lt today
  unfold weekAheadDelta
  simp only
  refine ⟨?_, ?_, ?_, ?_⟩ <;> split_ifs <;> omega

theorem addDays_le_isSome {today lim : Date} (h7 : addDays today 7 = some lim)
    {k : Nat} (hk : k ≤ 7) : ∃ r, addDays today k = some r := by
  have hsplit := addDays_add today k (7 - k)
  rw [show k + (7 - k) = 7 by omega, h7] at hsplit
  cases hak : addDays today k with
  | none => rw [hak] at hsplit; simp at hsplit
  | some r => exact ⟨r, rfl⟩

/-- C2 (amended, public variant): for each weekday name, provided `now`'s
date is valid and a week ahead does not overflow the calendar,
`convert_date_to_iso` returns a date strictly after today, at most seven
days ahead, falling on that weekday; when today already is that weekday
the result is exactly today + 7 days, and the result never equals today. -/
theorem resolve_weekday_strictly_future
    (name : List Char) (target : Nat) (today : Date)
    (hmem : (name, target) ∈ weekdayNames)
    (hv : today.validB = true) (h7 : (addDays today 7).isSome = true) :
    ∃ r, convert_date_to_iso name today = some r ∧
      today.toOrdinal < r.toOrdinal ∧
      r.toOrdinal ≤ today.toOrdinal + 7 ∧
      r.weekday = target ∧
      r ≠ today ∧
      (today.weekday = target → r.toOrdinal = today.toOrdinal + 7) := by
  obtain ⟨lim, hlim⟩ : ∃ lim, addDays today 7 = some lim := by
    cases h : addDays today 7 with
    | none => rw [h] at h7; simp at h7
    | some lim => exact ⟨lim, rfl⟩
  have main : ∀ tgt, tgt < 7 →
      ∃ r, addDays today (weekAheadDelta tgt today) = some r ∧
        today.toOrdinal < r.toOrdinal ∧
        r.toOrdinal ≤ today.toOrdinal + 7 ∧
        r.weekday = tgt ∧
        r ≠ today ∧
        (today.weekday = tgt → r.toOrdinal = today.toOrdinal + 7) := by
    intro tgt htgt
    obtain ⟨d1, d2, d3, d4⟩ := weekAheadDelta_spec tgt today htgt
    obtain ⟨r, hr⟩ := addDays_le_isSome hlim d2
    obtain ⟨hrv, hro⟩ := addDays_spec hv hr
    refine ⟨r, hr, by omega, by omega, ?_, ?_, ?_⟩
    · unfold Date.weekday at d3 ⊢
      omega
    · intro heq
      rw [heq] at hro
      omega
    · intro hwt
      rw [d4 hwt] at hro
      exact hro
  fin_cases hmem
  · rw [show convert_date_to_iso "monday".data today =
        addDays today (weekAheadDelta 0 today) from rfl]
    exact main 0 (by omega)
  · rw [show convert_date_to_iso "tuesday".data today =
        addDays today (weekAheadDelta 1 today) from rfl]
    exact main 1 (by omega)
  · rw [show convert_date_to_iso "wednesday".data today =
        addDays today (weekAheadDelta 2 today) from rfl]
    exact main 2 (by omega)
  · rw [show convert_date_to_iso "thursday".data today =
        addDays today (weekAheadDelta 3 today) from rfl]
    exact main 3 (by omega)
  · rw [show convert_date_to_iso "friday".data today =
        addDays today (weekAheadDelta 4 today) from rfl]
    exact main 4 (by omega)
  · rw [show convert_date_to_iso "saturday".data today =
        addDays today (weekAheadDelta 5 today) from rfl]
    exact main 5 (by omega)
  · rw [show convert_date_to_iso "sunday".data today =
        addDays today (weekAheadDelta 6 today) from rfl]
    exact main 6 (by omega)

/-- Witness for C2 at now = 2024-06-10 (a Monday): "monday" resolves to a
strictly future date on the right weekday. -/
theorem resolve_weekday_strictly_future_witness :
    ∃ r, convert_date_to_iso "monday".data ⟨2024, 6, 10⟩ = some r ∧
      Date.toOrdinal ⟨2024, 6, 10⟩ < r.toOrdinal ∧
      r.toOrdinal ≤ Date.toOrdinal ⟨2024, 6, 10⟩ + 7 ∧
      r.weekday = 0 ∧
      r ≠ ⟨2024, 6, 10⟩ ∧
      (Date.weekday ⟨2024, 6, 10⟩ = 0 → r.toOrdinal = Date.toOrdinal ⟨2024, 6, 10⟩ + 7) :=
  resolve_weekday_strictly_future "monday".data 0 ⟨2024, 6, 10⟩ (by decide) (by decide)
    (by decide)

/-- C2 counterexample: the frontend variant (`src/frontend/app.py`) only
recognizes "friday"; for the weekday name "monday" it falls through to the
ISO-parse branch and returns today itself — 2024-06-10 is a Monday, so the
claimed "strictly after `now.date`, on that weekday" fails. -/
theorem frontend_weekday_monday_returns_today :
    frontend_convert_date_to_iso "monday".data ⟨2024, 6, 10⟩ = some ⟨2024, 6, 10⟩ ∧
    Date.weekday ⟨2024, 6, 10⟩ = 0 :=
  ⟨rfl, by decide⟩

/-! ## Time normalizer output shape -/

/-- C3 counterexample: `convert_time_to_24h("25pm")` returns "37:00" — the
am/pm branch accepts a two-digit hour up to 99 and adds 12, so the result
is neither absent nor an "HH:MM" with hour in 0-23. -/
theorem convert_time_25pm_out_of_range :
    convert_time_to_24h "25pm".data ⟨⟨2024, 6, 10⟩, 9, 0⟩ = some "37:00".data ∧
    "37:00".data = fmtHM 37 0 ∧ ¬(37 < 24) := ⟨rfl, rfl, by omega⟩

theorem relTime_shape {ts : List Char} {cd : TempRef} {r : List Char}
    (hmins : cd.minute ≤ 59) (h : relTime ts cd = some r) :
    ∃ h2 m2, h2 < 24 ∧ m2 < 60 ∧ r = fmtHM h2 m2 := by
  unfold relTime at h
  split_ifs at h with h1 h2 h3 <;>
    (try split at h) <;>
    (try cases h) <;>
    (first
      | exact ⟨_, cd.minute, Nat.mod_lt _ (by omega), by omega, rfl⟩
      | exact ⟨_, _, Nat.mod_lt _ (by omega), Nat.mod_lt _ (by omega), rfl⟩)

theorem colonTime_shape {ts : List Char} {r : List Char}
    (h : colonTime ts = some r) :
    ∃ h2 m2, h2 < 24 ∧ m2 < 60 ∧ r = fmtHM h2 m2 := by
  unfold colonTime at h
  split_ifs at h with h1 <;>
    (try split at h) <;>
    (try split_ifs at h with h2) <;>
    (try cases h) <;>
    (obtain ⟨g1, g2, g3, g4⟩ := h2
     exact ⟨_, _, by omega, by omega, rfl⟩)

theorem wordTime_shape {ts : List Char} {r : List Char}
    (h : wordTime ts = some r) :
    ∃ h2 m2, h2 < 24 ∧ m2 < 60 ∧ r = fmtHM h2 m2 := by
  unfold wordTime at h
  split_ifs at h <;>
    (try cases h) <;>
    (first
      | exact ⟨9, 0, by omega, by omega, rfl⟩
      | exact ⟨14, 0, by omega, by omega, rfl⟩
      | exact ⟨18, 0, by omega, by omega, rfl⟩
      | exact ⟨20, 0, by omega, by omega, rfl⟩)

/-- C3 (amended): for every input and valid temporal reference,
`convert_time_to_24h` returns absent or a zero-padded `fmtHM h m`; the
hour and minute are in range (h < 24, m < 60) whenever the am/pm pattern
either does not match or matches with an hour ≤ 12 and a minute group
≤ 59 (inputs such as "25pm" or "7:75pm" break the range, not the shape). -/
theorem convert_time_canonical (s : List Char) (cd : TempRef)
    (hmins : cd.minute ≤ 59)
    (hamp : ∀ h0 m0 pm, ampmSearch (pyStrip (strLower s)) = some (h0, m0, pm) →
      h0 ≤ 12 ∧ m0 ≤ 59) :
    convert_time_to_24h s cd = none ∨
      ∃ h m, h < 24 ∧ m < 60 ∧ convert_time_to_24h s cd = some (fmtHM h m) := by
  unfold convert_time_to_24h
  split_ifs with hempty
  · exact Or.inl rfl
  · dsimp only
    split
    · rename_i r hrel
      obtain ⟨h2, m2, hb1, hb2, rfl⟩ := relTime_shape hmins hrel
      exact Or.inr ⟨h2, m2, hb1, hb2, rfl⟩
    · split_ifs with h12a h12p
      · exact Or.inr ⟨0, 0, by omega, by omega, rfl⟩
      · exact Or.inr ⟨12, 0, by omega, by omega, rfl⟩
      · split
        · rename_i hsearch
          obtain ⟨hh0, hm0⟩ := hamp _ _ _ hsearch
          refine Or.inr ⟨_, _, ?_, by omega, rfl⟩
          split_ifs with hc1 hc2 <;> simp_all <;> omega
        · split
          · rename_i r hcol
            obtain ⟨h2, m2, hb1, hb2, rfl⟩ := colonTime_shape hcol
            exact Or.inr ⟨h2, m2, hb1, hb2, rfl⟩
          · cases hword : wordTime (pyStrip (strLower s)) with
            | none => exact Or.inl rfl
            | some r =>
              obtain ⟨h2, m2, hb1, hb2, rfl⟩ := wordTime_shape hword
              exact Or.inr ⟨h2, m2, hb1, hb2, rfl⟩

/-- Witness for C3 at a concrete input: "9:30pm" → "21:30". -/
theorem convert_time_canonical_witness :
    convert_time_to_24h "9:30pm".data ⟨⟨2024, 6, 10⟩, 9, 0⟩ = none ∨
      ∃ h m, h < 24 ∧ m < 60 ∧
        convert_time_to_24h "9:30pm".data ⟨⟨2024, 6, 10⟩, 9, 0⟩ = some (fmtHM h m) :=
  convert_time_canonical "9:30pm".data ⟨⟨2024, 6, 10⟩, 9, 0⟩ (by decide)
    (by
      intro h0 m0 pm hs
      rw [show ampmSearch (pyStrip (strLower "9:30pm".data)) = some (9, 30, true)
        from rfl] at hs
      injection hs with h1
      injection h1 with h2 h3
      injection h3 with h4 h5
      omega)

/-! ## Sanitizer: tag-removal lemmas -/

theorem dropWhile_gt_nil_iff {cs : List Char} :
    cs.dropWhile (fun x => x ≠ '>') = [] ↔ '>' ∉ cs := by
  rw [List.dropWhile_eq_nil_iff]
  constructor
  · intro h hmem
    have := h _ hmem
    simp at this
  · intro h x hx
    have : x ≠ '>' := fun hc => h (hc ▸ hx)
    simp [this]

theorem startsTag_iff {cs : List Char} :
    startsTag cs = true ↔ (∃ d cs2, cs = d :: cs2 ∧ d ≠ '>') ∧ '>' ∈ cs := by
  unfold startsTag
  cases cs with
  | nil => simp
  | cons d cs2 =>
    by_cases hd : d = '>'
    · subst hd
      rw [List.takeWhile_cons, List.dropWhile_cons]
      simp
    · rw [List.takeWhile_cons, List.dropWhile_cons, if_pos (by simp [hd]),
        if_pos (by simp [hd])]
      simp only [List.isEmpty_cons, Bool.not_false, Bool.true_and, List.mem_cons]
      constructor
      · intro h
        have hne : cs2.dropWhile (fun x => x ≠ '>') ≠ [] := by
          intro he
          rw [he] at h
          simp at h
        have hmem : '>' ∈ cs2 := by
          by_contra hm
          exact hne (dropWhile_gt_nil_iff.mpr hm)
        exact ⟨⟨d, cs2, rfl, hd⟩, Or.inr hmem⟩
      · rintro ⟨-, hmem⟩
        have hmem2 : '>' ∈ cs2 := by
          rcases hmem with h1 | h1
          · exact absurd h1.symm hd
          · exact h1
        have hne : cs2.dropWhile (fun x => x ≠ '>') ≠ [] := by
          intro he
          exact dropWhile_gt_nil_iff.mp he hmem2
        cases he : cs2.dropWhile (fun x => x ≠ '>') with
        | nil => exact absurd he hne
        | cons a b => simp

theorem hasTag_cons {c : Char} {cs : List Char} :
    hasTag (c :: cs) = ((c = '<' && startsTag cs) || hasTag cs) := rfl

theorem removeTags_mem : ∀ (l : List Char) (c : Char), c ∈ removeTags l → c ∈ l := by
  intro l
  induction l using removeTags.induct with
  | case1 =>
    intro c hc
    rw [removeTags] at hc
    cases hc
  | case2 c0 cs hcond ih =>
    intro c hc
    rw [removeTags, if_pos hcond] at hc
    have h2 : c ∈ cs :=
      ((List.drop_sublist 1 _).trans (List.dropWhile_sublist _)).subset (ih c hc)
    exact List.mem_cons_of_mem _ h2
  | case3 c0 cs hcond ih =>
    intro c hc
    rw [removeTags, if_neg hcond] at hc
    rcases List.mem_cons.mp hc with rfl | h2
    · exact List.mem_cons_self _ _
    · exact List.mem_cons_of_mem _ (ih c h2)

theorem removeTags_noTag : ∀ (l : List Char), hasTag (removeTags l) = false := by
  intro l
  induction l using removeTags.induct with
  | case1 => rw [removeTags]; rfl
  | case2 c0 cs hcond ih =>
    rw [removeTags, if_pos hcond]
    exact ih
  | case3 c0 cs hcond ih =>
    rw [removeTags, if_neg hcond, hasTag_cons, ih, Bool.or_false]
    by_cases hc : c0 = '<'
    · subst hc
      have hst : startsTag cs = false := by
        cases hstc : startsTag cs with
        | false => rfl
        | true => exact absurd ⟨rfl, hstc⟩ hcond
      cases hR : startsTag (removeTags cs) with
      | false => simp [hR]
      | true =>
        exfalso
        obtain ⟨⟨d, cs2, hcs, hd⟩, hmem⟩ := startsTag_iff.mp hR
        have hmem2 : '>' ∈ cs := removeTags_mem cs '>' hmem
        have hT : startsTag cs = true := by
          rw [startsTag_iff]
          refine ⟨?_, hmem2⟩
          cases hcs0 : cs with
          | nil =>
            rw [hcs0, removeTags] at hcs
            cases hcs
          | cons e cs3 =>
            refine ⟨e, cs3, rfl, ?_⟩
            rintro rfl
            rw [hcs0, removeTags,
              if_neg (fun hcontra => absurd hcontra.1 (by decide))] at hcs
            injection hcs with h1 h2
            exact hd h1.symm
        rw [hT] at hst
        cases hst
    · simp [hc]

theorem startsTag_of_append {cs v : List Char} (h : startsTag cs = true) :
    startsTag (cs ++ v) = true := by
  rw [startsTag_iff] at h ⊢
  obtain ⟨⟨d, cs2, rfl, hd⟩, hmem⟩ := h
  refine ⟨⟨d, cs2 ++ v, rfl, hd⟩, ?_⟩
  rcases List.mem_cons.mp hmem with h1 | h1
  · exact List.mem_cons.mpr (Or.inl h1)
  · exact List.mem_cons.mpr (Or.inr (List.mem_append.mpr (Or.inl h1)))

theorem hasTag_append_right {w : List Char} (v : List Char) (h : hasTag w = true) :
    hasTag (w ++ v) = true := by
  induction w with
  | nil => cases h
  | cons c cs ih =>
    rw [hasTag_cons, Bool.or_eq_true] at h
    rw [List.cons_append, hasTag_cons, Bool.or_eq_true]
    rcases h with h1 | h1
    · rw [Bool.and_eq_true] at h1
      exact Or.inl (by rw [Bool.and_eq_true]; exact ⟨h1.1, startsTag_of_append h1.2⟩)
    · exact Or.inr (ih h1)

theorem hasTag_append_left (u : List Char) {w : List Char} (h : hasTag w = true) :
    hasTag (u ++ w) = true := by
  induction u with
  | nil => exact h
  | cons c cs ih =>
    rw [List.cons_append, hasTag_cons, Bool.or_eq_true]
    exact Or.inr ih

theorem hasTag_within {w l : List Char} (hw : w <:+: l) (h : hasTag w = true) :
    hasTag l = true := by
  obtain ⟨s, t, rfl⟩ := hw
  rw [List.append_assoc]
  exact hasTag_append_left s (hasTag_append_right t h)

theorem hasTag_false_removeTags_id : ∀ (l : List Char), hasTag l = false →
    removeTags l = l := by
  intro l
  induction l using removeTags.induct with
  | case1 => intro h; rw [removeTags]
  | case2 c0 cs hcond ih =>
    intro h
    obtain ⟨h1, h2⟩ := hcond
    subst h1
    rw [hasTag_cons] at h
    simp only [Bool.or_eq_false_iff, Bool.and_eq_false_iff] at h
    rcases h.1 with h3 | h3
    · simp at h3
    · rw [h3] at h2
      cases h2
  | case3 c0 cs hcond ih =>
    intro h
    rw [hasTag_cons] at h
    simp only [Bool.or_eq_false_iff] at h
    rw [removeTags, if_neg hcond, ih h.2]

/-! ## Sanitizer: whitespace-collapse and strip lemmas -/

theorem collapseWs_mem : ∀ (l : List Char) (c : Char), c ∈ collapseWs l →
    c = ' ' ∨ c ∈ l := by
  intro l
  induction l using collapseWs.induct with
  | case1 =>
    intro c hc
    rw [collapseWs] at hc
    cases hc
  | case2 c0 cs hws ih =>
    intro c hc
    rw [collapseWs, if_pos hws] at hc
    rcases List.mem_cons.mp hc with rfl | h2
    · exact Or.inl rfl
    · rcases ih c h2 with h3 | h3
      · exact Or.inl h3
      · exact Or.inr (List.mem_cons_of_mem _ ((List.dropWhile_sublist _).subset h3))
  | case3 c0 cs hws ih =>
    intro c hc
    rw [collapseWs, if_neg hws] at hc
    rcases List.mem_cons.mp hc with rfl | h2
    · exact Or.inr (List.mem_cons_self _ _)
    · rcases ih c h2 with h3 | h3
      · exact Or.inl h3
      · exact Or.inr (List.mem_cons_of_mem _ h3)

theorem collapseWs_head : ∀ (l : List Char),
    (collapseWs l).head? = l.head?.map (fun d => if isWs d then ' ' else d) := by
  intro l
  cases l with
  | nil => rw [collapseWs]; rfl
  | cons c cs =>
    rw [collapseWs]
    by_cases hws : isWs c
    · rw [if_pos hws]
      simp [hws]
    · rw [if_neg hws]
      simp [hws]

theorem hasTag_collapseWs : ∀ (l : List Char), hasTag (collapseWs l) = true →
    hasTag l = true := by
  intro l
  induction l using collapseWs.induct with
  | case1 =>
    intro h
    rw [collapseWs] at h
    cases h
  | case2 c0 cs hws ih =>
    intro h
    rw [collapseWs, if_pos hws, hasTag_cons, Bool.or_eq_true] at h
    rw [hasTag_cons, Bool.or_eq_true]
    rcases h with h1 | h1
    · rw [Bool.and_eq_true] at h1
      have := h1.1
      simp at this
    · have h2 := ih h1
      have h3 : hasTag cs = true :=
        hasTag_within (List.dropWhile_suffix isWs).isInfix h2
      exact Or.inr h3
  | case3 c0 cs hws ih =>
    intro h
    rw [collapseWs, if_neg hws, hasTag_cons, Bool.or_eq_true] at h
    rw [hasTag_cons, Bool.or_eq_true]
    rcases h with h1 | h1
    · rw [Bool.and_eq_true] at h1
      obtain ⟨hceq, hstR⟩ := h1
      obtain ⟨⟨d, cs2, hcs, hd⟩, hmem⟩ := startsTag_iff.mp hstR
      have hmem2 : '>' ∈ cs := by
        rcases collapseWs_mem cs '>' hmem with h3 | h3
        · exact absurd h3 (by decide)
        · exact h3
      have hT : startsTag cs = true := by
        rw [startsTag_iff]
        refine ⟨?_, hmem2⟩
        cases hcs0 : cs with
        | nil =>
          rw [hcs0, collapseWs] at hcs
          cases hcs
        | cons e cs3 =>
          refine ⟨e, cs3, rfl, ?_⟩
          rintro rfl
          rw [hcs0, collapseWs, if_neg (by decide)] at hcs
          injection hcs with hh1 hh2
          exact hd hh1.symm
      refine Or.inl ?_
      rw [Bool.and_eq_true]
      exact ⟨hceq, hT⟩
    · exact Or.inr (ih h1)

theorem collapseWs_ws_space : ∀ (l : List Char) (c : Char), c ∈ collapseWs l →
    isWs c = true → c = ' ' := by
  intro l
  induction l using collapseWs.induct with
  | case1 =>
    intro c hc
    rw [collapseWs] at hc
    cases hc
  | case2 c0 cs hws ih =>
    intro c hc hcws
    rw [collapseWs, if_pos hws] at hc
    rcases List.mem_cons.mp hc with rfl | h2
    · rfl
    · exact ih c h2 hcws
  | case3 c0 cs hws ih =>
    intro c hc hcws
    rw [collapseWs, if_neg hws] at hc
    rcases List.mem_cons.mp hc with rfl | h2
    · exact absurd hcws (by simpa using hws)
    · exact ih c h2 hcws

theorem collapseWs_chain : ∀ (l : List Char),
    (collapseWs l).Chain' (fun a b => ¬(isWs a = true ∧ isWs b = true)) := by
  intro l
  induction l using collapseWs.induct with
  | case1 =>
    rw [collapseWs]
    exact List.chain'_nil
  | case2 c0 cs hws ih =>
    rw [collapseWs, if_pos hws, List.chain'_cons']
    refine ⟨?_, ih⟩
    intro b hb
    rw [collapseWs_head] at hb
    cases hd : (cs.dropWhile isWs).head? with
    | none =>
      rw [hd] at hb
      cases hb
    | some d =>
      rw [hd] at hb
      have hdws : isWs d = false := by
        have h5 := List.head?_dropWhile_not isWs cs
        rw [hd] at h5
        simpa using h5
      simp only [Option.map_some', Option.mem_def, Option.some_inj] at hb
      rw [if_neg (by simp [hdws])] at hb
      rintro ⟨-, hbws⟩
      rw [← hb] at hbws
      rw [hdws] at hbws
      cases hbws
  | case3 c0 cs hws ih =>
    rw [collapseWs, if_neg hws, List.chain'_cons']
    refine ⟨?_, ih⟩
    intro b hb
    rintro ⟨hc0ws, -⟩
    exact hws hc0ws

theorem collapseWs_id : ∀ (l : List Char),
    (∀ c ∈ l, isWs c = true → c = ' ') →
    l.Chain' (fun a b => ¬(isWs a = true ∧ isWs b = true)) →
    collapseWs l = l := by
  intro l
  induction l with
  | nil =>
    intro _ _
    rw [collapseWs]
  | cons c cs ih =>
    intro hall hch
    rw [collapseWs]
    by_cases hws : isWs c
    · rw [if_pos hws]
      have hc := hall c (List.mem_cons_self _ _) hws
      have hdw : cs.dropWhile isWs = cs := by
        cases cs with
        | nil => rfl
        | cons d cs2 =>
          rw [List.dropWhile_cons]
          have hrel := (List.chain'_cons'.mp hch).1 d rfl
          have hdws : isWs d = false := by
            cases h : isWs d with
            | false => rfl
            | true => exact absurd ⟨hws, h⟩ hrel
          rw [if_neg (by simp [hdws])]
      rw [hdw, ih (fun c2 h2 => hall c2 (List.mem_cons_of_mem _ h2))
        (List.chain'_cons'.mp hch).2, hc]
    · rw [if_neg hws, ih (fun c2 h2 => hall c2 (List.mem_cons_of_mem _ h2))
        (List.chain'_cons'.mp hch).2]

theorem pyStrip_within (l : List Char) : pyStrip l <:+: l := by
  have h1 : l.dropWhile isWs <:+ l := List.dropWhile_suffix isWs
  have h2 : (l.dropWhile isWs).reverse.dropWhile isWs <:+ (l.dropWhile isWs).reverse :=
    List.dropWhile_suffix isWs
  have h3 : ((l.dropWhile isWs).reverse.dropWhile isWs).reverse <+: l.dropWhile isWs := by
    obtain ⟨u, hu⟩ := h2
    exact ⟨u.reverse, by rw [← List.reverse_append, hu, List.reverse_reverse]⟩
  exact h3.isInfix.trans h1.isInfix

theorem pyStrip_getLast_not_ws (l : List Char) :
    ∀ c, (pyStrip l).getLast? = some c → isWs c = false := by
  intro c hc
  unfold pyStrip at hc
  rw [List.getLast?_reverse] at hc
  have h5 := List.head?_dropWhile_not isWs (l.dropWhile isWs).reverse
  rw [hc] at h5
  simpa using h5

theorem pyStrip_head_not_ws (l : List Char) :
    ∀ c, (pyStrip l).head? = some c → isWs c = false := by
  intro c hc
  unfold pyStrip at hc
  rw [List.head?_reverse] at hc
  obtain ⟨u, hu⟩ : (l.dropWhile isWs).reverse.dropWhile isWs <:+
      (l.dropWhile isWs).reverse := List.dropWhile_suffix isWs
  have hne : (l.dropWhile isWs).reverse.dropWhile isWs ≠ [] := by
    intro h
    rw [h] at hc
    cases hc
  have hglast : (l.dropWhile isWs).reverse.getLast? = some c := by
    rw [← hu, List.getLast?_append_of_ne_nil u hne, hc]
  rw [List.getLast?_reverse] at hglast
  cases hh : (l.dropWhile isWs).head? with
  | none =>
    rw [hh] at hglast
    cases hglast
  | some d =>
    rw [hh] at hglast
    injection hglast with hdc
    have h5 := List.head?_dropWhile_not isWs l
    rw [hh, hdc] at h5
    simpa using h5

theorem pyStrip_id (l : List Char)
    (h1 : ∀ c, l.head? = some c → isWs c = false)
    (h2 : ∀ c, l.getLast? = some c → isWs c = false) : pyStrip l = l := by
  unfold pyStrip
  have hd : l.dropWhile isWs = l := by
    cases l with
    | nil => rfl
    | cons c cs => rw [List.dropWhile_cons, if_neg (by simp [h1 c rfl])]
  rw [hd]
  have hr : l.reverse.dropWhile isWs = l.reverse := by
    cases hre : l.reverse with
    | nil => rfl
    | cons c cs =>
      rw [List.dropWhile_cons]
      have hg : l.getLast? = some c := by
        rw [← List.head?_reverse, hre]
        rfl
      rw [if_neg (by simp [h2 c hg])]
  rw [hr, List.reverse_reverse]

/-- C8: `strip_html_tags` is idempotent, its output contains no intact
`<[^>]+>` span, every whitespace character left is a single space (no two
adjacent whitespace characters), and the ends are trimmed.  Totality is
by construction (it is a Lean function). -/
theorem sanitize_idempotent_no_tags (x : List Char) :
    strip_html_tags (strip_html_tags x) = strip_html_tags x ∧
    hasTag (strip_html_tags x) = false ∧
    (∀ c ∈ strip_html_tags x, isWs c = true → c = ' ') ∧
    (strip_html_tags x).Chain' (fun a b => ¬(isWs a = true ∧ isWs b = true)) ∧
    (∀ c, (strip_html_tags x).head? = some c → isWs c = false) ∧
    (∀ c, (strip_html_tags x).getLast? = some c → isWs c = false) := by
  by_cases hx : x.isEmpty
  · have hxe : x = [] := by
      cases x
      · rfl
      · cases hx
    subst hxe
    refine ⟨rfl, rfl, ?_, List.chain'_nil, ?_, ?_⟩
    · intro c hc
      cases hc
    · intro c hc
      cases hc
    · intro c hc
      cases hc
  · have hmain : strip_html_tags x = pyStrip (collapseWs (removeTags x)) := by
      unfold strip_html_tags
      rw [if_neg hx]
    rw [hmain]
    have hnt : hasTag (pyStrip (collapseWs (removeTags x))) = false := by
      cases h : hasTag (pyStrip (collapseWs (removeTags x))) with
      | false => rfl
      | true =>
        have h2 := hasTag_within (pyStrip_within _) h
        have h3 := hasTag_collapseWs _ h2
        rw [removeTags_noTag x] at h3
        cases h3
    have hwsp : ∀ c ∈ pyStrip (collapseWs (removeTags x)), isWs c = true → c = ' ' := by
      intro c hc hws
      exact collapseWs_ws_space _ c ((pyStrip_within _).subset hc) hws
    have hch : (pyStrip (collapseWs (removeTags x))).Chain'
        (fun a b => ¬(isWs a = true ∧ isWs b = true)) :=
      List.Chain'.infix (collapseWs_chain _) (pyStrip_within _)
    have hh := pyStrip_head_not_ws (collapseWs (removeTags x))
    have hg := pyStrip_getLast_not_ws (collapseWs (removeTags x))
    refine ⟨?_, hnt, hwsp, hch, hh, hg⟩
    by_cases hye : (pyStrip (collapseWs (removeTags x))).isEmpty
    · unfold strip_html_tags
      rw [if_pos hye]
    · unfold strip_html_tags
      rw [if_neg hye, hasTag_false_removeTags_id _ hnt, collapseWs_id _ hwsp hch]
      exact pyStrip_id _ hh hg

/-! ## `parse_json_response`: span extraction -/

theorem dropWhile_append_all {p : Char → Bool} :
    ∀ (u : List Char), (∀ c ∈ u, p c = true) →
      ∀ rest : List Char, (u ++ rest).dropWhile p = rest.dropWhile p
  | [], _, rest => rfl
  | c :: u2, hu, rest => by
    rw [List.cons_append, List.dropWhile_cons, if_pos (hu c (List.mem_cons_self c u2))]
    exact dropWhile_append_all u2 (fun c2 h2 => hu c2 (List.mem_cons_of_mem c h2)) rest

theorem extractSpan_decomp (p1 s3 p2 : List Char)
    (hp1 : ∀ c ∈ p1, c ≠ '{')
    (hp2 : ∀ c ∈ p2, c ≠ '}') :
    extractSpan (p1 ++ ('{' :: s3 ++ ['}']) ++ p2) = some ('{' :: s3 ++ ['}']) := by
  unfold extractSpan
  have h1 : (p1 ++ ('{' :: s3 ++ ['}']) ++ p2).dropWhile (fun c => c ≠ '{')
      = '{' :: (s3 ++ ['}'] ++ p2) := by
    rw [List.append_assoc,
      dropWhile_append_all p1 (fun c hc => decide_eq_true (hp1 c hc)),
      List.cons_append, List.cons_append, List.dropWhile_cons, if_neg (by simp)]
  dsimp only
  rw [h1]
  have h2 : ('{' :: (s3 ++ ['}'] ++ p2)).reverse.dropWhile (fun c => c ≠ '}')
      = '}' :: (s3.reverse ++ ['{']) := by
    have hrev : ('{' :: (s3 ++ ['}'] ++ p2)).reverse
        = p2.reverse ++ ('}' :: (s3.reverse ++ ['{'])) := by
      simp [List.reverse_cons, List.reverse_append, List.append_assoc]
    rw [hrev,
      dropWhile_append_all p2.reverse
        (fun c hc => decide_eq_true (hp2 c (List.mem_reverse.mp hc))),
      List.dropWhile_cons, if_neg (by simp)]
  rw [h2]
  have h3 : ('}' :: (s3.reverse ++ ['{'])).reverse = '{' :: s3 ++ ['}'] := by
    simp [List.reverse_cons, List.reverse_append]
  rw [h3, if_pos (by simp)]

theorem isPrefixOf_mono {u v l : List Char} (huv : u <+: v)
    (h : v.isPrefixOf l = true) : u.isPrefixOf l = true :=
  List.isPrefixOf_iff_prefix.mpr (huv.trans (List.isPrefixOf_iff_prefix.mp h))

/-- C7: `parse_json_response` tolerates surrounding prose and, when the
stripped text is not code-fenced, parses the span from the first `\x7b` to
the LAST `\x7d` of the text (the regex `\x7b.*\x7d` is greedy) — not the
first balanced span.  When the prose before the span has no `\x7b` and the
prose after it has no `\x7d`, that greedy span is exactly the object text,
so a lone JSON object surrounded by such prose decodes correctly and a
decode failure yields `none` rather than an exception. -/
theorem parse_json_prose_tolerant (p1 s3 p2 : List Char)
    (hp1 : ∀ c ∈ p1, c ≠ '{')
    (hp2 : ∀ c ∈ p2, c ≠ '}')
    (hstrip : pyStrip (p1 ++ ('{' :: s3 ++ ['}']) ++ p2)
        = p1 ++ ('{' :: s3 ++ ['}']) ++ p2)
    (hfence : "```".data.isPrefixOf (p1 ++ ('{' :: s3 ++ ['}']) ++ p2) = false) :
    parse_json_response (p1 ++ ('{' :: s3 ++ ['}']) ++ p2)
      = (jsonLoads (pyStrip ('{' :: s3 ++ ['}']))).bind postMessage := by
  have hf7 : "```json".data.isPrefixOf (p1 ++ ('{' :: s3 ++ ['}']) ++ p2) = false := by
    cases h : "```json".data.isPrefixOf (p1 ++ ('{' :: s3 ++ ['}']) ++ p2) with
    | false => rfl
    | true => rw [isPrefixOf_mono (by decide) h] at hfence; cases hfence
  unfold parse_json_response
  dsimp only
  rw [hstrip, if_neg (by rw [hf7]; decide), if_neg (by rw [hfence]; decide),
    extractSpan_decomp p1 s3 p2 hp1 hp2]
  cases jsonLoads (pyStrip ('{' :: s3 ++ ['}'])) <;> rfl

theorem parse_json_prose_tolerant_witness :
    parse_json_response ("Sure: ".data ++ ('{' :: "\"a\": 1".data ++ ['}']) ++ " done".data)
      = (jsonLoads (pyStrip ('{' :: "\"a\": 1".data ++ ['}']))).bind postMessage :=
  parse_json_prose_tolerant "Sure: ".data "\"a\": 1".data " done".data
    (by decide) (by decide) rfl rfl

/-- C7 counterexample: on `\x7b"a": 1\x7d and \x7b"b": 2\x7d` the first
balanced span is the valid JSON object `\x7b"a": 1\x7d`, yet
`parse_json_response` returns `none`: the greedy regex grabs from the
first `\x7b` to the LAST `\x7d`, and that longer span is not valid JSON. -/
theorem parse_json_not_first_balanced_span :
    specFirstBalanced ("\x7b\"a\": 1\x7d and \x7b\"b\": 2\x7d".data)
        = some ("\x7b\"a\": 1\x7d".data)
      ∧ (jsonLoads ("\x7b\"a\": 1\x7d".data)).isSome = true
      ∧ parse_json_response ("\x7b\"a\": 1\x7d and \x7b\"b\": 2\x7d".data) = none :=
  ⟨rfl, rfl, rfl⟩

/-! ## Session-store noninterference of the chat handler -/

set_option maxHeartbeats 1600000 in
/-- C10: the `/api/chat` handler is noninterferent with respect to the
process-wide session store: for any two contents of `chat_sessions`, the
same request together with the same generation-capability outputs yields
the same handler result and the same final reminder store.  The handler
only performs lookup-or-create on the session store and never reads the
stored session when building its response. -/
theorem chat_session_noninterference (req : ChatRequest) (oracle : GenOracle)
    (s1 s2 : List (List Char)) (storage : List Reminder) :
    (chat req oracle s1 storage).1 = (chat req oracle s2 storage).1
      ∧ (chat req oracle s1 storage).2.2 = (chat req oracle s2 storage).2.2 := by
  refine ⟨?_, ?_⟩ <;>
  · unfold chat
    dsimp only
    by_cases hm : req.message.isEmpty = true
    · rw [if_pos hm, if_pos hm]
    · rw [if_neg hm, if_neg hm]
      cases oracle.chatRaw with
      | none => rfl
      | some craw =>
        dsimp only
        cases parse_json_response craw with
        | none => rfl
        | some cd =>
          dsimp only
          cases cd with
          | null => rfl
          | bool b => rfl
          | num lex => rfl
          | str s => rfl
          | arr xs => rfl
          | obj cfs =>
            dsimp only
            cases intentResp req cfs with
            | none => rfl
            | some resp0 =>
              dsimp only
              split
              · rcases dataStep req.current_datetime oracle.dataRaw storage with ⟨o, st⟩
                cases o <;> rfl
              · rfl

/-! ## The reminder listing query -/

/-- C9 counterexample: a reminder with `completed = true` and today's date
is excluded from `today_reminders` and `upcoming_reminders` but appears in
`all_reminders`, which is returned unfiltered. -/
theorem completed_reminder_in_all_reminders :
    get_reminders ⟨2024, 6, 10⟩
        [⟨1, .str "title".data, .str "2024-06-10".data, .null, .str [], true⟩]
      = some ([], [],
          [⟨1, .str "title".data, .str "2024-06-10".data, .null, .str [], true⟩]) := rfl

/-- C9: the listing query returns `today_reminders` (open reminders dated
today), `upcoming_reminders` (open reminders dated from today through
today + 7 days inclusive), and `all_reminders`; the completed filter
applies to the first two lists, while `all_reminders` is the raw store,
completed entries included. -/
theorem get_reminders_filtering (today : Date) (storage : List Reminder)
    (next_week : Date) (hnw : addDays today 7 = some next_week) :
    ∃ t u a, get_reminders today storage = some (t, u, a)
      ∧ (∀ r, r ∈ t ↔ r ∈ storage ∧ r.completed = false
            ∧ reminderDateOf r = some today)
      ∧ (∀ r, r ∈ u ↔ r ∈ storage ∧ r.completed = false
            ∧ ∃ d, reminderDateOf r = some d
                ∧ dateLe today d = true ∧ dateLe d next_week = true)
      ∧ a = storage := by
  have hg : get_reminders today storage
      = some (storage.filter (fun r =>
            !r.completed && (match reminderDateOf r with
                             | some d => d == today
                             | none => false)),
          storage.filter (fun r =>
            !r.completed && (match reminderDateOf r with
                             | some d => dateLe today d && dateLe d next_week
                             | none => false)),
          storage) := by
    unfold get_reminders
    rw [hnw]
  refine ⟨_, _, _, hg, ?_, ?_, rfl⟩
  · intro r
    rw [List.mem_filter]
    constructor
    · rintro ⟨hr, hb⟩
      rw [Bool.and_eq_true] at hb
      obtain ⟨hc, hd⟩ := hb
      refine ⟨hr, by simpa using hc, ?_⟩
      cases hdo : reminderDateOf r with
      | none => rw [hdo] at hd; cases hd
      | some d =>
        rw [hdo] at hd
        have hde : d = today := by simpa using hd
        rw [hde]
    · rintro ⟨hr, hc, hdo⟩
      refine ⟨hr, ?_⟩
      rw [Bool.and_eq_true]
      refine ⟨by simp [hc], ?_⟩
      rw [hdo]
      simp
  · intro r
    rw [List.mem_filter]
    constructor
    · rintro ⟨hr, hb⟩
      rw [Bool.and_eq_true] at hb
      obtain ⟨hc, hd⟩ := hb
      refine ⟨hr, by simpa using hc, ?_⟩
      cases hdo : reminderDateOf r with
      | none => rw [hdo] at hd; cases hd
      | some d =>
        rw [hdo] at hd
        rw [Bool.and_eq_true] at hd
        exact ⟨d, rfl, hd.1, hd.2⟩
    · rintro ⟨hr, hc, d, hdo, h1, h2⟩
      refine ⟨hr, ?_⟩
      rw [Bool.and_eq_true]
      refine ⟨by simp [hc], ?_⟩
      rw [hdo]
      dsimp only
      rw [h1, h2]
      rfl

theorem get_reminders_filtering_witness :
    addDays ⟨2024, 6, 10⟩ 7 = some ⟨2024, 6, 17⟩
      ∧ ∃ t u a, get_reminders ⟨2024, 6, 10⟩ [] = some (t, u, a)
        ∧ (∀ r, r ∈ t ↔ r ∈ ([] : List Reminder) ∧ r.completed = false
              ∧ reminderDateOf r = some ⟨2024, 6, 10⟩)
        ∧ (∀ r, r ∈ u ↔ r ∈ ([] : List Reminder) ∧ r.completed = false
              ∧ ∃ d, reminderDateOf r = some d
                  ∧ dateLe ⟨2024, 6, 10⟩ d = true ∧ dateLe d ⟨2024, 6, 17⟩ = true)
        ∧ a = ([] : List Reminder) :=
  ⟨rfl, get_reminders_filtering ⟨2024, 6, 10⟩ [] ⟨2024, 6, 17⟩ rfl⟩

/-! ## Rejected candidates: exact error response, store unchanged -/

set_option maxHeartbeats 1600000 in
/-- C5: when the decoded extraction candidate carries a truthy `error`
field, or its date/time normalization succeeds but validation fails, the
chat response's message becomes exactly "Sorry, I couldn't set that
reminder: \x7berror\x7d", the trigger is forced to `false`, the error
field is set, and the reminder store is left unchanged. -/
theorem chat_rejected_error_response (req : ChatRequest) (oracle : GenOracle)
    (sessions : List (List Char)) (storage : List Reminder)
    (craw draw : List Char) (cfs fs : List (List Char × Json))
    (resp0 : ChatResponse) (e : Json)
    (hm : req.message.isEmpty = false)
    (hc : oracle.chatRaw = some craw)
    (hp : parse_json_response craw = some (.obj cfs))
    (hi : intentResp req cfs = some resp0)
    (ht : jTruthy (jGetD cfs "trigger".data .null) = true)
    (hd : oracle.dataRaw = some draw)
    (hpd : parse_json_response draw = some (.obj fs))
    (htrd : jTruthy (Json.obj fs) = true)
    (hrej : (jTruthy (jGetD fs "error".data .null) = true
               ∧ e = jGetD fs "error".data .null)
      ∨ (jTruthy (jGetD fs "error".data .null) = false
         ∧ ∃ d ct verr,
             pyConvertDate (jGetD fs "date".data (.str "today".data))
               req.current_datetime.isoDate = some d
           ∧ pyConvertTime (jGetD fs "time".data .null) req.current_datetime = some ct
           ∧ validate_datetime d ct req.current_datetime = some verr
           ∧ e = .str verr)) :
    chat req oracle sessions storage
      = (.ok { resp0 with message := .str (sorryMsg e),
                          trigger := .bool false,
                          error := some e },
         (if req.session_id ∈ sessions then sessions else sessions ++ [req.session_id]),
         storage) := by
  have hproc : process_reminder_data (.obj fs) req.current_datetime storage
      = some (.rejected e, storage) := by
    unfold process_reminder_data
    rw [htrd, if_neg (by decide)]
    dsimp only
    cases hrej with
    | inl h =>
      split
      · rw [h.2]
      · rename_i hcond
        exact absurd h.1 hcond
    | inr h =>
      obtain ⟨herr, d, ct, verr, hdc, htc, hv, he⟩ := h
      split
      · rename_i hcond
        exact Bool.noConfusion (herr.symm.trans hcond)
      · split
        · rename_i heq
          exact Option.noConfusion (hdc.symm.trans heq)
        · rename_i d2 heq
          obtain rfl : d = d2 := Option.some.inj (hdc.symm.trans heq)
          split
          · rename_i heq2
            exact Option.noConfusion (htc.symm.trans heq2)
          · rename_i ct2 heq2
            obtain rfl : ct = ct2 := Option.some.inj (htc.symm.trans heq2)
            split
            · rename_i verr2 heq3
              obtain rfl : verr = verr2 := Option.some.inj (hv.symm.trans heq3)
              rw [he]
            · rename_i heq3
              exact Option.noConfusion (hv.symm.trans heq3)
  have hds : dataStep req.current_datetime oracle.dataRaw storage
      = (.rejectedD e, storage) := by
    rw [hd]
    unfold dataStep
    dsimp only
    split
    · rename_i heq
      exact Option.noConfusion (hpd.symm.trans heq)
    · rename_i rd heq
      obtain rfl : Json.obj fs = rd := Option.some.inj (hpd.symm.trans heq)
      rw [htrd, if_neg (by decide)]
      split
      · rename_i heq2
        exact Option.noConfusion (hproc.symm.trans heq2)
      · rename_i st heq2
        have h3 := Option.some.inj (hproc.symm.trans heq2)
        injection h3 with h4 h5
        exact ProcResult.noConfusion h4
      · rename_i e2 st heq2
        have h3 := Option.some.inj (hproc.symm.trans heq2)
        injection h3 with h4 h5
        injection h4 with h6
        rw [h5, h6]
      · rename_i r st heq2
        have h3 := Option.some.inj (hproc.symm.trans heq2)
        injection h3 with h4 h5
        exact ProcResult.noConfusion h4
  unfold chat
  dsimp only
  rw [if_neg (by simp [hm]), hc]
  dsimp only
  split
  · rename_i heq
    exact Option.noConfusion (hp.symm.trans heq)
  · rename_i chatData heq
    obtain rfl : Json.obj cfs = chatData := Option.some.inj (hp.symm.trans heq)
    dsimp only
    split
    · rename_i heq2
      exact Option.noConfusion (hi.symm.trans heq2)
    · rename_i r0 heq2
      obtain rfl : resp0 = r0 := Option.some.inj (hi.symm.trans heq2)
      split
      · rw [hds]
      · rename_i hcond
        exact absurd ht hcond

theorem chat_rejected_error_response_witness :
    chat ⟨"set a reminder".data, "s1".data, ⟨⟨2024, 6, 10⟩, 12, 0⟩, false⟩
        ⟨some "\x7b\"message\": false, \"trigger\": true\x7d".data,
         some "\x7b\"error\": \"boom\"\x7d".data⟩ [] []
      = (.ok { message := .str (sorryMsg (.str "boom".data)),
               trigger := .bool false,
               session_id := "s1".data,
               title := none, reminder_created := none,
               error := some (.str "boom".data) },
         ["s1".data], []) :=
  chat_rejected_error_response
    ⟨"set a reminder".data, "s1".data, ⟨⟨2024, 6, 10⟩, 12, 0⟩, false⟩
    ⟨some "\x7b\"message\": false, \"trigger\": true\x7d".data,
     some "\x7b\"error\": \"boom\"\x7d".data⟩
    [] []
    "\x7b\"message\": false, \"trigger\": true\x7d".data
    "\x7b\"error\": \"boom\"\x7d".data
    [("message".data, .bool false), ("trigger".data, .bool true)]
    [("error".data, .str "boom".data)]
    ⟨.bool false, .bool true, "s1".data, none, none, none⟩
    (.str "boom".data)
    rfl rfl rfl rfl rfl rfl rfl rfl (Or.inl ⟨rfl, rfl⟩)

/-! ## Extraction decode failure: no candidate at all -/

/-- C6 (amended): when the extraction stage's raw response fails to decode
as JSON, the public service produces NO reminder candidate: the data
branch leaves the response exactly `resp0` (no `reminder_created`, no
error) and the reminder store unchanged.  No Fallback Extractor exists
anywhere in `src/public/app.py`; the generic-default candidate the spec
describes is never built. -/
theorem extraction_decode_failure_no_candidate (req : ChatRequest)
    (oracle : GenOracle) (sessions : List (List Char)) (storage : List Reminder)
    (craw draw : List Char) (cfs : List (List Char × Json)) (resp0 : ChatResponse)
    (hm : req.message.isEmpty = false)
    (hc : oracle.chatRaw = some craw)
    (hp : parse_json_response craw = some (.obj cfs))
    (hi : intentResp req cfs = some resp0)
    (ht : jTruthy (jGetD cfs "trigger".data .null) = true)
    (hd : oracle.dataRaw = some draw)
    (hpd : parse_json_response draw = none) :
    chat req oracle sessions storage
      = (.ok resp0,
         (if req.session_id ∈ sessions then sessions else sessions ++ [req.session_id]),
         storage) := by
  have hds : dataStep req.current_datetime oracle.dataRaw storage
      = (.nothingD, storage) := by
    rw [hd]
    unfold dataStep
    dsimp only
    split
    · rfl
    · rename_i rd heq
      exact Option.noConfusion (hpd.symm.trans heq)
  unfold chat
  dsimp only
  rw [if_neg (by simp [hm]), hc]
  dsimp only
  split
  · rename_i heq
    exact Option.noConfusion (hp.symm.trans heq)
  · rename_i chatData heq
    obtain rfl : Json.obj cfs = chatData := Option.some.inj (hp.symm.trans heq)
    dsimp only
    split
    · rename_i heq2
      exact Option.noConfusion (hi.symm.trans heq2)
    · rename_i r0 heq2
      obtain rfl : resp0 = r0 := Option.some.inj (hi.symm.trans heq2)
      split
      · rw [hds]
      · rename_i hcond
        exact absurd ht hcond

theorem extraction_decode_failure_no_candidate_witness :
    chat ⟨"remind me tomorrow".data, "sid".data, ⟨⟨2024, 6, 10⟩, 8, 0⟩, false⟩
        ⟨some "\x7b\"message\": false, \"trigger\": true\x7d".data,
         some "not json at all".data⟩ [] []
      = (.ok ⟨.bool false, .bool true, "sid".data, none, none, none⟩,
         ["sid".data], []) :=
  extraction_decode_failure_no_candidate
    ⟨"remind me tomorrow".data, "sid".data, ⟨⟨2024, 6, 10⟩, 8, 0⟩, false⟩
    ⟨some "\x7b\"message\": false, \"trigger\": true\x7d".data,
     some "not json at all".data⟩
    [] []
    "\x7b\"message\": false, \"trigger\": true\x7d".data
    "not json at all".data
    [("message".data, .bool false), ("trigger".data, .bool true)]
    ⟨.bool false, .bool true, "sid".data, none, none, none⟩
    rfl rfl rfl rfl rfl rfl rfl

/-- C6 counterexample support: with the extraction output undecodable, the
handler stores nothing and reports no candidate (first conjunct), even
though the generic-default candidate the spec's Fallback Extractor would
produce — `\x7btitle: "Reminder", date: "today", time: absent\x7d` — would
have validated and been stored at this temporal reference had anything
produced it (second conjunct). -/
theorem extraction_decode_failure_counterexample :
    chat ⟨"remind me".data, "s".data, ⟨⟨2024, 6, 10⟩, 8, 0⟩, false⟩
        ⟨some "\x7b\"message\": false, \"trigger\": true\x7d".data,
         some "oops".data⟩ [] []
      = (.ok ⟨.bool false, .bool true, "s".data, none, none, none⟩, ["s".data], [])
    ∧ process_reminder_data
        (.obj [("title".data, .str "Reminder".data), ("date".data, .str "today".data)])
        ⟨⟨2024, 6, 10⟩, 8, 0⟩ []
      = some (.stored ⟨1, .str "Reminder".data, .str "2024-06-10".data,
                       .null, .str [], false⟩,
              [⟨1, .str "Reminder".data, .str "2024-06-10".data,
                .null, .str [], false⟩]) :=
  ⟨rfl, rfl⟩

/-! ## Store invariants: ids, pipeline validation, manual creation -/

theorem prevDay_validB {dt e : Date} (hv : dt.validB = true) (h : prevDay dt = some e) :
    e.validB = true := by
  simp only [Date.validB, Bool.and_eq_true, decide_eq_true_eq] at hv
  obtain ⟨⟨⟨⟨⟨h1, h2⟩, h3⟩, h4⟩, h5⟩, h6⟩ := hv
  unfold prevDay at h
  split at h
  · cases h
    simp only [Date.validB, Bool.and_eq_true, decide_eq_true_eq]
    omega
  · split at h
    · cases h
      simp only [Date.validB, Bool.and_eq_true, decide_eq_true_eq]
      have := daysInMonth_pos dt.year (dt.month - 1) (by omega) (by omega)
      omega
    · split at h
      · cases h
        simp only [Date.validB, Bool.and_eq_true, decide_eq_true_eq, daysInMonth]
        omega
      · cases h

theorem convert_date_validB {s : List Char} {today d : Date}
    (hv : today.validB = true) (h : convert_date_to_iso s today = some d) :
    d.validB = true := by
  unfold convert_date_to_iso at h
  split at h
  · cases h; exact hv
  · dsimp only at h
    split at h
    · cases h; exact hv
    · split at h
      · exact (addDays_spec hv h).1
      · split at h
        · exact prevDay_validB hv h
        · split at h
          · exact (addDays_spec hv h).1
          · split at h
            · rename_i r heq
              split at heq
              · split at heq
                · split at heq
                  · cases heq
                    exact (addDays_spec hv h).1
                  · split at heq
                    · cases heq
                      exact (addDays_spec hv h).1
                    · cases heq
                · cases heq
              · cases heq
            · split at h
              · rename_i dm heq
                split at h
                · rename_i hcv
                  split at h
                  · split at h
                    · rename_i hcv2
                      cases h
                      exact hcv2
                    · cases h; exact hv
                  · rename_i hcv2
                    cases h
                    exact hcv
                · cases h; exact hv
              · split at h
                · split at h
                  · rename_i d2 heq2
                    cases h
                    exact isoParse_valid heq2
                  · cases h; exact hv
                · cases h; exact hv

theorem pyConvertDate_validB {v : Json} {today d : Date}
    (hv : today.validB = true) (h : pyConvertDate v today = some d) :
    d.validB = true := by
  unfold pyConvertDate at h
  split at h
  · exact convert_date_validB hv h
  · split at h
    · cases h
    · cases h; exact hv

/-- Shape of one pipeline processing step: the store is unchanged unless a
reminder was stored, and a stored reminder is appended with the next id. -/
theorem process_store_shape {rd : Json} {cd : TempRef} {s st : List Reminder}
    {res : ProcResult}
    (h : process_reminder_data rd cd s = some (res, st)) :
    st = s ∨ ∃ r, res = .stored r ∧ st = s ++ [r] ∧ r.id = s.length + 1 := by
  unfold process_reminder_data at h
  split at h
  · cases h; exact Or.inl rfl
  · split at h
    · dsimp only at h
      split at h
      · cases h; exact Or.inl rfl
      · split at h
        · cases h
        · split at h
          · cases h
          · split at h
            · cases h; exact Or.inl rfl
            · cases h
              exact Or.inr ⟨_, rfl, rfl, rfl⟩
    · cases h

/-- A reminder stored by the pipeline was appended to the store with the
next id, is open, and carries the ISO string of a valid calendar date that
passed `validate_datetime`. -/
theorem process_stored_validated {rd : Json} {cd : TempRef} {s st : List Reminder}
    {r : Reminder}
    (hv : cd.isoDate.validB = true)
    (h : process_reminder_data rd cd s = some (.stored r, st)) :
    st = s ++ [r] ∧ r.id = s.length + 1 ∧ r.completed = false
    ∧ ∃ dd ct, dd.validB = true
        ∧ r.date = .str (isoString dd)
        ∧ validate_datetime dd ct cd = none
        ∧ isoParse (isoString dd) = some dd := by
  unfold process_reminder_data at h
  split at h
  · cases h
  · split at h
    · dsimp only at h
      split at h
      · cases h
      · split at h
        · cases h
        · rename_i iso_date heqd
          split at h
          · cases h
          · rename_i ct heqt
            split at h
            · cases h
            · rename_i heqv
              cases h
              have hval : iso_date.validB = true := pyConvertDate_validB hv heqd
              exact ⟨rfl, rfl, rfl,
                iso_date, ct, hval, rfl, heqv, isoParse_isoString hval⟩
    · cases h

/-- After any sequence of store operations starting from a store whose ids
are `1..N`, the ids are again exactly `1..N2`. -/
theorem runOps_ids_aux : ∀ (ops : List StoreOp) (storage : List Reminder),
    storage.map (fun x => x.id) = List.range' 1 storage.length →
    (ops.foldl applyOp storage).map (fun x => x.id)
      = List.range' 1 (ops.foldl applyOp storage).length := by
  intro ops
  induction ops with
  | nil => intro s h; exact h
  | cons op rest ih =>
    intro s h
    rw [List.foldl_cons]
    apply ih
    cases op with
    | manual req wt =>
      simp only [applyOp]
      unfold create_manual_reminder
      dsimp only
      rw [List.map_append, h, List.length_append, List.map_cons, List.map_nil]
      simp [List.range'_concat, Nat.add_comm]
    | pipeline rd cd =>
      simp only [applyOp]
      cases hp : process_reminder_data rd cd s with
      | none => exact h
      | some pr =>
        rcases pr with ⟨res, st⟩
        dsimp only
        rcases process_store_shape hp with heq | ⟨r, _, heq, hid⟩
        · rw [heq]; exact h
        · rw [heq, List.map_append, h, List.length_append, List.map_cons,
            List.map_nil, hid]
          simp [List.range'_concat, Nat.add_comm]

/-- C4 counterexample: a manual `POST /api/reminders` stores the client's
`date` payload verbatim, with no validation at all — here the stored date
is the string "hello", which is not a syntactically valid ISO date. -/
theorem manual_reminder_unvalidated_date :
    runOps [.manual ⟨none, some (.str "hello".data), none, none⟩ ⟨2024, 6, 10⟩]
      = [⟨1, .str [], .str "hello".data, .null, .str [], false⟩]
    ∧ isoParse "hello".data = none :=
  ⟨rfl, rfl⟩

/-- C4 (amended): after any sequence of insertions the ids are exactly
`1..N`, strictly increasing with no gaps, repeats or reuse; and a reminder
stored by the PIPELINE is appended with the next id, open, and carries the
ISO string of a valid calendar date that passed validation.  (Manual
creation, by contrast, stores the client's data verbatim — see the
counterexample — so the valid-ISO-date and never-rejected invariants hold
only for pipeline insertions.) -/
theorem store_ids_and_pipeline_validation (ops : List StoreOp)
    (rd : Json) (cd : TempRef) (storage st : List Reminder) (r : Reminder)
    (hv : cd.isoDate.validB = true)
    (hst : process_reminder_data rd cd storage = some (.stored r, st)) :
    ((runOps ops).map (fun x => x.id) = List.range' 1 (runOps ops).length)
    ∧ st = storage ++ [r] ∧ r.id = storage.length + 1 ∧ r.completed = false
    ∧ ∃ dd ct, dd.validB = true
        ∧ r.date = .str (isoString dd)
        ∧ validate_datetime dd ct cd = none
        ∧ isoParse (isoString dd) = some dd :=
  ⟨runOps_ids_aux ops [] rfl, process_stored_validated hv hst⟩

theorem store_ids_and_pipeline_validation_witness :
    ((runOps [.manual ⟨none, none, none, none⟩ ⟨2024, 6, 10⟩]).map (fun x => x.id)
        = List.range' 1 (runOps [.manual ⟨none, none, none, none⟩ ⟨2024, 6, 10⟩]).length)
    ∧ [⟨1, .str "T".data, .str "2024-06-10".data, .str "10:00".data, .str [], false⟩]
        = ([] : List Reminder)
          ++ [⟨1, .str "T".data, .str "2024-06-10".data, .str "10:00".data, .str [], false⟩]
    ∧ (⟨1, .str "T".data, .str "2024-06-10".data, .str "10:00".data, .str [],
        false⟩ : Reminder).id = ([] : List Reminder).length + 1
    ∧ (⟨1, .str "T".data, .str "2024-06-10".data, .str "10:00".data, .str [],
        false⟩ : Reminder).completed = false
    ∧ ∃ dd ct, dd.validB = true
        ∧ (⟨1, .str "T".data, .str "2024-06-10".data, .str "10:00".data, .str [],
            false⟩ : Reminder).date = .str (isoString dd)
        ∧ validate_datetime dd ct ⟨⟨2024, 6, 10⟩, 8, 0⟩ = none
        ∧ isoParse (isoString dd) = some dd :=
  store_ids_and_pipeline_validation
    [.manual ⟨none, none, none, none⟩ ⟨2024, 6, 10⟩]
    (.obj [("title".data, .str "T".data), ("date".data, .str "today".data),
           ("time".data, .str "10:00".data)])
    ⟨⟨2024, 6, 10⟩, 8, 0⟩ []
    [⟨1, .str "T".data, .str "2024-06-10".data, .str "10:00".data, .str [], false⟩]
    ⟨1, .str "T".data, .str "2024-06-10".data, .str "10:00".data, .str [], false⟩
    rfl rfl

end RemindMe
